import Mathlib

/-!
Verification of the tekton-lsp test-harness scripts (`check-tekton.py`,
`test-hover.py`, `test-symbols.py`, `test-definition.py`, ...): a shallow
embedding of the LSP wire-format framer (`send_msg` / `parse_lsp_responses`),
of Python's `json.dumps` / `json.loads` (restricted to integer numbers; floats,
`NaN` and `Infinity` are outside the model), and of the per-scenario response
correlators and validators, together with proofs about them.

Python strings are sequences of Unicode code points, so the buffer type is
`List Nat`.  The decoder in the scripts runs on `output.decode()` — a `str` —
hence the whole pipeline is modelled at the code-point level.
-/

namespace TektonLSP

/-- Python strings are sequences of Unicode code points; we model them as lists of naturals. -/
abbrev Str := List Nat

/-- Code points of a Lean string literal, for readability of embedded literals. -/
def codes (s : String) : Str := s.data.map Char.toNat

/-- ASCII decimal digit test (`\d` of the header regex, restricted to ASCII). -/
def isDigitB (c : Nat) : Bool := 48 ≤ c && c ≤ 57

/-- Value of a run of decimal digits, as `int()` computes it (leading zeros allowed). -/
def digitsToNat (ds : Str) : Nat := ds.foldl (fun acc c => acc * 10 + (c - 48)) 0

/-- Decimal digits of `n`, most significant first (fueled; fuel `n+1` always suffices). -/
def natToDigits : Nat → Nat → Str
  | 0, _ => []
  | fuel + 1, n => if n < 10 then [48 + n] else natToDigits fuel (n / 10) ++ [48 + n % 10]

/-- Decimal representation of a natural number, as Python prints it. -/
def natToStr (n : Nat) : Str := natToDigits (n + 1) n

/-- Decimal representation of an integer, as Python prints it (`-` sign for negatives). -/
def intToStr (i : Int) : Str := if i < 0 then 45 :: natToStr i.natAbs else natToStr i.toNat

/-- JSON whitespace characters (space, tab, newline, carriage return). -/
def isWsB (c : Nat) : Bool := c = 32 || c = 9 || c = 10 || c = 13

/-- Drop leading JSON whitespace. -/
def skipWs : Str → Str
  | [] => []
  | c :: cs => if isWsB c then skipWs cs else c :: cs

/-- JSON values as produced by `json.loads` / consumed by `json.dumps`
(numbers restricted to integers). -/
inductive Json where
  | null : Json
  | bool : Bool → Json
  | num : Int → Json
  | str : Str → Json
  | arr : List Json → Json
  | obj : List (Str × Json) → Json
deriving Repr

/-- Lowercase hex digit for a value `< 16`. -/
def hexDig (d : Nat) : Nat := if d < 10 then 48 + d else 87 + d

/-- Four lowercase hex digits of a value `< 0x10000`, as in a `\uXXXX` escape. -/
def hex4 (n : Nat) : Str := [hexDig (n / 4096 % 16), hexDig (n / 256 % 16), hexDig (n / 16 % 16), hexDig (n % 16)]

/-- `json.dumps` escaping of one code point with `ensure_ascii=True` (the default):
`"` and `\` and the five short control escapes, `\u00XX` for other controls,
code points `0x20`–`0x7e` kept literally, `\uXXXX` for the rest, with a
surrogate pair for code points above `0xFFFF`. -/
def escapeChar (c : Nat) : Str :=
  if c = 34 then [92, 34]
  else if c = 92 then [92, 92]
  else if c = 8 then [92, 98]
  else if c = 9 then [92, 116]
  else if c = 10 then [92, 110]
  else if c = 12 then [92, 102]
  else if c = 13 then [92, 114]
  else if c < 32 then 92 :: 117 :: hex4 c
  else if c ≤ 126 then [c]
  else if c < 65536 then 92 :: 117 :: hex4 c
  else 92 :: 117 :: hex4 (55296 + (c - 65536) / 1024) ++ (92 :: 117 :: hex4 (56320 + (c - 65536) % 1024))

/-- `json.dumps` of a string: quote, escaped code points, quote. -/
def dumpStr (s : Str) : Str := 34 :: (s.flatMap escapeChar) ++ [34]

mutual
/-- `json.dumps(msg)` with default options: separators `", "` and `": "`,
`ensure_ascii=True`, insertion order preserved. -/
def dumps : Json → Str
  | .null => codes "null"
  | .bool true => codes "true"
  | .bool false => codes "false"
  | .num i => intToStr i
  | .str s => dumpStr s
  | .arr [] => [91, 93]
  | .arr (x :: xs) => 91 :: (dumps x ++ dumpsArrTail xs) ++ [93]
  | .obj [] => [123, 125]
  | .obj ((k, v) :: kvs) => 123 :: (dumpStr k ++ (58 :: 32 :: dumps v) ++ dumpsObjTail kvs) ++ [125]

/-- The `", "`-separated encoding of the tail elements of an array. -/
def dumpsArrTail : List Json → Str
  | [] => []
  | x :: xs => 44 :: 32 :: dumps x ++ dumpsArrTail xs

/-- The `", "`-separated encoding of the tail members of an object. -/
def dumpsObjTail : List (Str × Json) → Str
  | [] => []
  | (k, v) :: kvs => 44 :: 32 :: (dumpStr k ++ (58 :: 32 :: dumps v)) ++ dumpsObjTail kvs
end

/-- A code point a Python `str` can hold (anything below `0x110000`; lone
surrogates are representable in Python but excluded from well-formed payloads). -/
def wfCp (c : Nat) : Bool := c < 1114112 && !(55296 ≤ c && c ≤ 57343)

/-- All code points of a string are valid Unicode scalar values. -/
def wfStr (s : Str) : Bool := s.all wfCp

/-- No key occurs twice (Python `dict`s cannot hold duplicate keys, so a
message built from a `dict` always satisfies this). -/
def nodupKeys : List (Str × Json) → Bool
  | [] => true
  | (k, _) :: kvs => !(kvs.any (fun kv => kv.1 == k)) && nodupKeys kvs

mutual
/-- Well-formed message payloads: strings are surrogate-free valid Unicode and
object keys are distinct — exactly the values representable as Python objects
fed to `json.dumps`. -/
def wfJson : Json → Bool
  | .null => true
  | .bool _ => true
  | .num _ => true
  | .str s => wfStr s
  | .arr xs => wfJsonList xs
  | .obj kvs => nodupKeys kvs && wfJsonKV kvs

def wfJsonList : List Json → Bool
  | [] => true
  | x :: xs => wfJson x && wfJsonList xs

def wfJsonKV : List (Str × Json) → Bool
  | [] => true
  | (k, v) :: kvs => wfStr k && wfJson v && wfJsonKV kvs
end

/-- Value of one hex digit character (either case), as in a `\uXXXX` escape. -/
def parseHexDig (c : Nat) : Option Nat :=
  if 48 ≤ c ∧ c ≤ 57 then some (c - 48)
  else if 97 ≤ c ∧ c ≤ 102 then some (c - 87)
  else if 65 ≤ c ∧ c ≤ 70 then some (c - 55)
  else none

/-- Value of four hex digit characters. -/
def parseHex4 (a b c d : Nat) : Option Nat :=
  match parseHexDig a, parseHexDig b, parseHexDig c, parseHexDig d with
  | some x, some y, some z, some w => some (4096 * x + 256 * y + 16 * z + w)
  | _, _, _, _ => none

/-- Decode the escape `\uXXXX\uYYYY` continuation: if `s` starts with another
`\u` escape carrying a low surrogate, return its value and the rest. -/
def lowSurrogateAt : Str → Option (Nat × Str)
  | 92 :: 117 :: a :: b :: c :: d :: rest =>
    match parseHex4 a b c d with
    | some m => if 56320 ≤ m ∧ m ≤ 57343 then some (m, rest) else none
    | none => none
  | _ => none

/-- Body of a JSON string after the opening quote, as `json.loads` scans it:
standard escapes, `\uXXXX` escapes with surrogate-pair recombination (a high
surrogate escape followed by a `\u` low surrogate escape yields one code
point; an unpaired surrogate escape is kept as is, as Python does), raw code
points `≥ 0x20` kept, raw control characters rejected (strict mode).  The
fuel only bounds the number of scanned units; `|input| + 1` always suffices. -/
def parseStrBodyF : Nat → Str → Option (Str × Str)
  | 0, _ => none
  | fuel + 1, s =>
    match s with
    | [] => none
    | c :: r =>
      if c = 34 then some ([], r)
      else if c = 92 then
        match r with
        | [] => none
        | e :: r2 =>
          if e = 34 then (parseStrBodyF fuel r2).map (fun (t, r') => (34 :: t, r'))
          else if e = 92 then (parseStrBodyF fuel r2).map (fun (t, r') => (92 :: t, r'))
          else if e = 47 then (parseStrBodyF fuel r2).map (fun (t, r') => (47 :: t, r'))
          else if e = 98 then (parseStrBodyF fuel r2).map (fun (t, r') => (8 :: t, r'))
          else if e = 102 then (parseStrBodyF fuel r2).map (fun (t, r') => (12 :: t, r'))
          else if e = 110 then (parseStrBodyF fuel r2).map (fun (t, r') => (10 :: t, r'))
          else if e = 114 then (parseStrBodyF fuel r2).map (fun (t, r') => (13 :: t, r'))
          else if e = 116 then (parseStrBodyF fuel r2).map (fun (t, r') => (9 :: t, r'))
          else if e = 117 then
            match r2 with
            | a :: b :: c' :: d :: r3 =>
              match parseHex4 a b c' d with
              | none => none
              | some n =>
                if 55296 ≤ n ∧ n ≤ 56319 then
                  match lowSurrogateAt r3 with
                  | some (m, r4) =>
                    (parseStrBodyF fuel r4).map
                      (fun (t, r') => ((65536 + (n - 55296) * 1024 + (m - 56320)) :: t, r'))
                  | none => (parseStrBodyF fuel r3).map (fun (t, r') => (n :: t, r'))
                else (parseStrBodyF fuel r3).map (fun (t, r') => (n :: t, r'))
            | _ => none
          else none
      else if c < 32 then none
      else (parseStrBodyF fuel r).map (fun (t, r') => (c :: t, r'))

/-- String-body scan with its sufficient fuel. -/
def parseStrBody (s : Str) : Option (Str × Str) := parseStrBodyF (s.length + 1) s

/-- Does the remainder continue with `.`, `e` or `E` — the start of the
fractional/exponent part of a float? -/
def floatStart : Str → Bool
  | [] => false
  | c :: _ => c = 46 || c = 101 || c = 69

/-- Integer part of a JSON number per the RFC grammar `0 | [1-9][0-9]*` (a
leading `0` is not followed by further digits); a following `.`, `e` or `E`
would start a float, which is outside this model, so it is rejected here. -/
def parseNumBody : Str → Option (Nat × Str)
  | [] => none
  | c :: r =>
    if isDigitB c then
      let ds : Str := if c = 48 then [c] else c :: r.takeWhile isDigitB
      let rest : Str := if c = 48 then r else r.dropWhile isDigitB
      if floatStart rest then none else some (digitsToNat ds, rest)
    else none

/-- A JSON number (integer), with optional leading minus sign. -/
def parseNumber : Str → Option (Json × Str)
  | [] => none
  | c :: r =>
    if c = 45 then (parseNumBody r).map (fun (n, rest) => (.num (-(n : Int)), rest))
    else (parseNumBody (c :: r)).map (fun (n, rest) => (.num (n : Int), rest))

/-- Insert a key/value pair with `dict` semantics: an existing key keeps its
position but gets the new value; a new key is appended. -/
def upsert (k : Str) (v : Json) : List (Str × Json) → List (Str × Json)
  | [] => [(k, v)]
  | (k', v') :: rest => if k' = k then (k', v) :: rest else (k', v') :: upsert k v rest

/-- `dict(pairs)`: later values for a repeated key overwrite earlier ones,
keys keep their first-occurrence position. -/
def dedupKeys (kvs : List (Str × Json)) : List (Str × Json) :=
  kvs.foldl (fun acc kv => upsert kv.1 kv.2 acc) []

mutual
/-- One JSON value, as `json.loads` scans it.  The fuel only bounds recursion
depth; every recursive call decreases it, and `loads` supplies enough for any
input of the given length. -/
def parseVal : Nat → Str → Option (Json × Str)
  | 0, _ => none
  | fuel + 1, s =>
    match s with
    | [] => none
    | c :: r =>
      if c = 110 then
        match r with
        | 117 :: 108 :: 108 :: r' => some (.null, r')
        | _ => none
      else if c = 116 then
        match r with
        | 114 :: 117 :: 101 :: r' => some (.bool true, r')
        | _ => none
      else if c = 102 then
        match r with
        | 97 :: 108 :: 115 :: 101 :: r' => some (.bool false, r')
        | _ => none
      else if c = 34 then (parseStrBody r).map (fun (t, r') => (.str t, r'))
      else if c = 91 then parseArr fuel (skipWs r)
      else if c = 123 then parseObj fuel (skipWs r)
      else parseNumber (c :: r)

/-- Array contents after the opening bracket (and whitespace). -/
def parseArr : Nat → Str → Option (Json × Str)
  | 0, _ => none
  | fuel + 1, s =>
    match s with
    | [] => none
    | c :: r =>
      if c = 93 then some (.arr [], r)
      else
        match parseVal fuel (c :: r) with
        | none => none
        | some (v, r1) =>
          match parseArrTail fuel (skipWs r1) with
          | none => none
          | some (vs, r2) => some (.arr (v :: vs), r2)

/-- After one array element: either the closing bracket or a comma and more. -/
def parseArrTail : Nat → Str → Option (List Json × Str)
  | 0, _ => none
  | fuel + 1, s =>
    match s with
    | [] => none
    | c :: r =>
      if c = 93 then some ([], r)
      else if c = 44 then
        match parseVal fuel (skipWs r) with
        | none => none
        | some (v, r1) =>
          match parseArrTail fuel (skipWs r1) with
          | none => none
          | some (vs, r2) => some (v :: vs, r2)
      else none

/-- Object contents after the opening brace (and whitespace); the member list
is collapsed with `dict` semantics. -/
def parseObj : Nat → Str → Option (Json × Str)
  | 0, _ => none
  | fuel + 1, s =>
    match s with
    | [] => none
    | c :: r =>
      if c = 125 then some (.obj [], r)
      else if c = 34 then
        match parseStrBody r with
        | none => none
        | some (k, r1) =>
          match skipWs r1 with
          | 58 :: r2 =>
            match parseVal fuel (skipWs r2) with
            | none => none
            | some (v, r3) =>
              match parseObjTail fuel (skipWs r3) with
              | none => none
              | some (kvs, r4) => some (.obj (dedupKeys ((k, v) :: kvs)), r4)
          | _ => none
      else none

/-- After one object member: either the closing brace or a comma and more. -/
def parseObjTail : Nat → Str → Option (List (Str × Json) × Str)
  | 0, _ => none
  | fuel + 1, s =>
    match s with
    | [] => none
    | c :: r =>
      if c = 125 then some ([], r)
      else if c = 44 then
        match skipWs r with
        | 34 :: r1 =>
          match parseStrBody r1 with
          | none => none
          | some (k, r2) =>
            match skipWs r2 with
            | 58 :: r3 =>
              match parseVal fuel (skipWs r3) with
              | none => none
              | some (v, r4) =>
                match parseObjTail fuel (skipWs r4) with
                | none => none
                | some (kvs, r5) => some ((k, v) :: kvs, r5)
            | _ => none
        | _ => none
      else none
end

/-- `json.loads(s)`: skip leading whitespace, scan one value, require that only
whitespace remains ("Extra data" otherwise); `none` models `JSONDecodeError`.
The fuel `2 * |s| + 2` exceeds the recursion depth reachable on an input of
this length. -/
def loads (s : Str) : Option Json :=
  match parseVal (2 * s.length + 2) (skipWs s) with
  | some (v, r) => match skipWs r with | [] => some v | _ => none
  | none => none

/-! ## The wire framer -/

/-- The literal part of the header regex `Content-Length: (\d+)\r\n\r\n`. -/
def headerLit : Str := codes "Content-Length: "

/-- Attempt to match the header regex at the start of `s`.  On success returns
`(match.end(), int(match.group(1)))`: the offset one past `\r\n\r\n` and the
declared byte count.  The greedy `\d+` takes the maximal digit run; shortening
it cannot help since the next pattern character `\r` is not a digit, so
maximal-run-then-check is exactly the regex semantics. -/
def matchAt (s : Str) : Option (Nat × Nat) :=
  if headerLit.isPrefixOf s then
    let rest := s.drop 16
    let ds := rest.takeWhile isDigitB
    if ds.isEmpty then none
    else if [13, 10, 13, 10].isPrefixOf (rest.drop ds.length) then
      some (16 + ds.length + 4, digitsToNat ds)
    else none
  else none

/-- `re.search(pattern, s)` for the header regex: the leftmost position with a
match; returns `(match.end(), declared length)` relative to `s`. -/
def findHeader : Str → Option (Nat × Nat)
  | [] => none
  | c :: cs =>
    match matchAt (c :: cs) with
    | some r => some r
    | none => (findHeader cs).map (fun (e, v) => (e + 1, v))

/-- Python slice `output[a:b]` (indices past the end are clipped). -/
def slice (output : Str) (a b : Nat) : Str := (output.take b).drop a

/-- The `while pos < len(output)` loop of `parse_lsp_responses`: search for the
header from `pos`, decode the declared range as JSON (appending the message on
success, skipping silently on `JSONDecodeError`), and continue at `json_end`.
The fuel only bounds the iteration count; since every iteration advances `pos`,
`|output| + 1` always suffices. -/
def parseLoop : Nat → Str → Nat → List Json
  | 0, _, _ => []
  | fuel + 1, output, pos =>
    if pos < output.length then
      match findHeader (output.drop pos) with
      | none => []
      | some (mEnd, len) =>
        let json_start := pos + mEnd
        let json_end := json_start + len
        (match loads (slice output json_start json_end) with
         | some msg => [msg]
         | none => []) ++ parseLoop fuel output json_end
    else []

/-- `parse_lsp_responses(output)`: all messages extracted from the buffer. -/
def parse_lsp_responses (output : Str) : List Json := parseLoop (output.length + 1) output 0

/-- The loop resumed at position `pos` (with sufficient fuel). -/
def parseFrom (output : Str) (pos : Nat) : List Json := parseLoop (output.length + 1 - pos) output pos

/-- `send_msg(msg)`: the header states `len(content_str)` — the number of code
points of the serialized JSON — followed by `\r\n\r\n` and the JSON text. -/
def encode (m : Json) : Str :=
  headerLit ++ natToStr (dumps m).length ++ ([13, 10, 13, 10] ++ dumps m)

/-- UTF-8 byte length of one code point. -/
def utf8CpLen (c : Nat) : Nat :=
  if c < 128 then 1 else if c < 2048 then 2 else if c < 65536 then 3 else 4

/-- UTF-8 byte length of a string (`len(text.encode())`). -/
def utf8Len (s : Str) : Nat := (s.map utf8CpLen).sum

/-! ## Correlators and validators from the test scripts -/

/-- `msg.get(key)` for a decoded message.  Python raises `AttributeError` on a
non-`dict`; the claims only concern object-shaped messages, so non-objects map
to `none` here. -/
def pyGet (j : Json) (k : Str) : Option Json :=
  match j with
  | .obj kvs => (kvs.find? (fun kv => kv.1 == k)).map (·.2)
  | _ => none

/-- Python truthiness of a value decoded by `json.loads`. -/
def pyTruthy : Json → Bool
  | .null => false
  | .bool b => b
  | .num i => i != 0
  | .str s => !s.isEmpty
  | .arr xs => !xs.isEmpty
  | .obj kvs => !kvs.isEmpty

mutual
/-- `repr()` of a value decoded by `json.loads` (string quote/control escaping
inside `repr` of a `str` is elided: the scripts only ever feed the result to a
case-insensitive substring test). -/
def pyRepr : Json → Str
  | .null => codes "None"
  | .bool true => codes "True"
  | .bool false => codes "False"
  | .num i => intToStr i
  | .str s => 39 :: s ++ [39]
  | .arr [] => codes "[]"
  | .arr (x :: xs) => 91 :: (pyRepr x ++ pyReprArrTail xs) ++ [93]
  | .obj [] => codes "\x7b\x7d"
  | .obj ((k, v) :: kvs) => 123 :: ((39 :: k ++ [39]) ++ (58 :: 32 :: pyRepr v) ++ pyReprObjTail kvs) ++ [125]

def pyReprArrTail : List Json → Str
  | [] => []
  | x :: xs => 44 :: 32 :: pyRepr x ++ pyReprArrTail xs

def pyReprObjTail : List (Str × Json) → Str
  | [] => []
  | (k, v) :: kvs => 44 :: 32 :: ((39 :: k ++ [39]) ++ (58 :: 32 :: pyRepr v)) ++ pyReprObjTail kvs
end

/-- `str()` of a value decoded by `json.loads`: a string is itself, anything
else prints as its `repr`. -/
def pyStr : Json → Str
  | .str s => s
  | j => pyRepr j

/-- `str.lower()` restricted to ASCII letters (the keywords the validators
search for are ASCII, so the full Unicode case mapping is not modelled). -/
def strLower (s : Str) : Str := s.map (fun c => if 65 ≤ c ∧ c ≤ 90 then c + 32 else c)

/-- Python `needle in hay` substring test. -/
def containsSub (needle hay : Str) : Bool :=
  (List.range (hay.length + 1)).any (fun i => needle.isPrefixOf (hay.drop i))

/-- `msg.get("id") == i` as the correlation loops test it. -/
def idEq (msg : Json) (i : Int) : Bool :=
  match pyGet msg (codes "id") with
  | some (.num j) => j == i
  | _ => false

/-- The correlation loop of `test-symbols.py` / `test-definition.py` (and the
other scripts with a `break`): the first message whose id matches. -/
def correlateFirst (messages : List Json) (i : Int) : Option Json :=
  messages.find? (fun m => idEq m i)

/-- One step of the `test-hover.py` correlation loop (lines 109–113): the pair
is `(hover_tasks, hover_pipeline)`. -/
def hoverStep (acc : Option Json × Option Json) (msg : Json) : Option Json × Option Json :=
  if idEq msg 2 then (some msg, acc.2)
  else if idEq msg 3 then (acc.1, some msg)
  else acc

/-- The correlation loop of `test-hover.py` (lines 107–113): one pass over all
messages assigning `hover_tasks` on id 2 and `hover_pipeline` on id 3, with no
`break`, so each match overwrites the previous one. -/
def hoverCorrelate (messages : List Json) : Option Json × Option Json :=
  messages.foldl hoverStep (none, none)

/-- One hover assertion branch of `test-hover.py` (lines 118–136 and 139–157):
the guard `resp and "result" in resp and resp["result"]` must hold, then the
extracted text must contain one of the keywords case-insensitively; every
other path sets `success = False`.  (A non-string under the `"value"` key
would make `value.lower()` raise in Python; it is modelled as an empty text,
which likewise fails the keyword test.) -/
def hoverBranchOk (resp : Option Json) (kws : List Str) : Bool :=
  match resp with
  | none => false
  | some msg =>
    if !pyTruthy msg then false
    else
      match pyGet msg (codes "result") with
      | none => false
      | some res =>
        if !pyTruthy res then false
        else
          let content := (pyGet res (codes "contents")).getD (.obj [])
          let value : Str :=
            match content with
            | .obj _ =>
              match pyGet content (codes "value") with
              | some (.str s) => s
              | _ => []
            | _ => pyStr content
          kws.any (fun kw => containsSub kw (strLower value))

/-- Overall verdict of `test-hover.py`: both hover branches must pass. -/
def hoverSuccess (messages : List Json) : Bool :=
  hoverBranchOk (hoverCorrelate messages).1 [codes "tasks", codes "pipelinetask"] &&
    hoverBranchOk (hoverCorrelate messages).2 [codes "pipeline"]

/-- Exit status of `test-hover.py` (lines 159–164). -/
def hoverExitCode (messages : List Json) : Nat := if hoverSuccess messages then 0 else 1

/-- `result.get("uri", "")` as the definition validator reads it (a non-string
value would make `in` raise in Python; modelled as the empty default). -/
def pyGetStrD (j : Json) (k : Str) : Str :=
  match pyGet j k with
  | some (.str s) => s
  | _ => []

/-- Verdict of `test-definition.py` (lines 122–164).  Crucially, when the
guard `resp and "result" in resp and resp["result"]` fails, the script only
prints a note and leaves `success = True` (lines 153–157). -/
def defSuccess (messages : List Json) : Bool :=
  match correlateFirst messages 2 with
  | none => true
  | some resp =>
    if !pyTruthy resp then true
    else
      match pyGet resp (codes "result") with
      | none => true
      | some res =>
        if !pyTruthy res then true
        else
          match res with
          | .obj _ => containsSub (codes "build-task.yaml") (pyGetStrD res (codes "uri"))
          | .arr (first :: _) => containsSub (codes "build-task.yaml") (pyGetStrD first (codes "uri"))
          | _ => false

/-- Exit status of `test-definition.py` (lines 159–164). -/
def defExitCode (messages : List Json) : Nat := if defSuccess messages then 0 else 1

/-- `msg.get("method") == "textDocument/publishDiagnostics"`. -/
def isPubDiag (msg : Json) : Bool :=
  match pyGet msg (codes "method") with
  | some (.str s) => s == codes "textDocument/publishDiagnostics"
  | _ => false

/-- The tail of `validate_tekton_file` (lines 67–72): the first
`publishDiagnostics` message yields `msg.get("params", {}).get("diagnostics", [])`;
when no such message exists the function returns `[]`.  (A non-object
`params` would make `.get` raise in Python; modelled by the default.) -/
def diagResult (messages : List Json) : Json :=
  match messages.find? isPubDiag with
  | some msg => (pyGet ((pyGet msg (codes "params")).getD (.obj [])) (codes "diagnostics")).getD (.arr [])
  | none => .arr []

/-- Exit status of `check-tekton.py`'s `__main__` block (lines 79–89): status 1
with a per-diagnostic report when the returned list is truthy, status 0 with
the "No issues found!" message otherwise. -/
def checkExitCode (messages : List Json) : Nat :=
  if pyTruthy (diagResult messages) then 1 else 0


/-- A continuation after a serialized number that cannot extend it: empty, or
not starting with a digit, `.`, `e` or `E`.  Every position where `dumps`
emits a number is followed by `,`, `]`, `}` or the end of the text, all of
which satisfy this. -/
def numEndOk : Str → Bool
  | [] => true
  | c :: _ => !isDigitB c && !(c == 46) && !(c == 101) && !(c == 69)

/-! ## Sanity evaluations of the embedded framer and JSON codec -/

example : parse_lsp_responses (codes "Content-Length: 4\x0d\x0a\x0d\x0anull") = [.null] := by rfl
example : parse_lsp_responses (encode (.num 123)) = [.num 123] := by rfl
example : parse_lsp_responses (codes "Content-Length: 6\x0d\x0a\x0d\x0a123") = [.num 123] := by rfl
example : loads (codes "123") = some (.num 123) := by rfl
example : loads (codes " \x7b\x22a\x22: [1, -2], \x22b\x22: null\x7d ") =
    some (.obj [(codes "a", .arr [.num 1, .num (-2)]), (codes "b", .null)]) := by rfl
example : loads (codes "xxx") = none := by rfl
example : loads (codes "\x7b\x7d x") = none := by rfl
example : loads (dumps (.str [233, 119997, 97])) = some (.str [233, 119997, 97]) := by rfl

/-! ## Basic facts about the header matcher and the decode loop -/

/-- A successful header match spans at least 21 code points
(16 for `Content-Length: `, at least one digit, 4 for `\r\n\r\n`). -/
theorem matchAt_le (s : Str) (e v : Nat) (h : matchAt s = some (e, v)) : 21 ≤ e := by
  simp only [matchAt] at h
  by_cases hp : headerLit.isPrefixOf s
  · rw [if_pos hp] at h
    by_cases he : ((s.drop 16).takeWhile isDigitB).isEmpty
    · rw [if_pos he] at h; exact absurd h (by simp)
    · rw [if_neg he] at h
      by_cases hc : ([13, 10, 13, 10] : Str).isPrefixOf
          ((s.drop 16).drop ((s.drop 16).takeWhile isDigitB).length)
      · rw [if_pos hc] at h
        have h1 : 16 + ((s.drop 16).takeWhile isDigitB).length + 4 = e := by
          have := congrArg (fun o => (o.getD (0, 0)).1) h
          simpa using this
        have hlen : 1 ≤ ((s.drop 16).takeWhile isDigitB).length := by
          cases hds : (s.drop 16).takeWhile isDigitB with
          | nil => rw [hds] at he; exact absurd rfl he
          | cons a t => simp [hds]
        omega
      · rw [if_neg hc] at h; exact absurd h (by simp)
  · rw [if_neg hp] at h; exact absurd h (by simp)

/-- `re.search` reports a match end at offset at least 21. -/
theorem findHeader_le (s : Str) (e v : Nat) (h : findHeader s = some (e, v)) : 21 ≤ e := by
  induction s generalizing e v with
  | nil => simp [findHeader] at h
  | cons c cs ih =>
    unfold findHeader at h
    cases hm : matchAt (c :: cs) with
    | some r =>
      obtain ⟨e', v'⟩ := r
      rw [hm] at h
      simp only [Option.some.injEq, Prod.mk.injEq] at h
      obtain ⟨rfl, rfl⟩ := h
      exact matchAt_le (c :: cs) e' v' hm
    | none =>
      rw [hm] at h
      cases hf : findHeader cs with
      | none => rw [hf] at h; exact absurd h (by simp)
      | some r =>
        obtain ⟨e', v'⟩ := r
        rw [hf] at h
        simp only [Option.map_some', Option.some.injEq, Prod.mk.injEq] at h
        have := ih e' v' hf
        omega

/-- Past the end of the buffer the loop yields nothing. -/
theorem parseLoop_stop (fuel : Nat) (output : Str) (pos : Nat) (h : output.length ≤ pos) :
    parseLoop fuel output pos = [] := by
  cases fuel with
  | zero => rfl
  | succ f => simp [parseLoop, Nat.not_lt.mpr h]

/-- The loop result does not depend on the fuel once the fuel exceeds the
remaining buffer length (each iteration advances the position). -/
theorem parseLoop_congr (fuel : Nat) :
    ∀ fuel' output pos, output.length < pos + fuel → output.length < pos + fuel' →
      parseLoop fuel output pos = parseLoop fuel' output pos := by
  induction fuel with
  | zero =>
    intro fuel' output pos h h'
    have : output.length ≤ pos := by omega
    rw [parseLoop_stop _ _ _ this, parseLoop_stop _ _ _ this]
  | succ f ih =>
    intro fuel' output pos h h'
    by_cases hpos : pos < output.length
    · obtain ⟨f', rfl⟩ : ∃ f', fuel' = f' + 1 := ⟨fuel' - 1, by omega⟩
      simp only [parseLoop, hpos, if_true]
      cases hf : findHeader (output.drop pos) with
      | none => rfl
      | some r =>
        obtain ⟨mEnd, len⟩ := r
        have h21 := findHeader_le _ _ _ hf
        simp only
        rw [ih f' output (pos + mEnd + len) (by omega) (by omega)]
    · rw [parseLoop_stop _ _ _ (by omega), parseLoop_stop _ _ _ (by omega)]

/-- The whole-buffer decode is the loop started at position 0. -/
theorem parse_eq_parseFrom (output : Str) : parse_lsp_responses output = parseFrom output 0 := rfl

/-- One iteration of the decode loop: with a header match in the suffix at
`pos`, the loop emits the decode of the declared range (nothing on a JSON
failure) and continues exactly at `json_end`. -/
theorem parseFrom_step (output : Str) (pos mEnd len : Nat)
    (hpos : pos < output.length)
    (hf : findHeader (output.drop pos) = some (mEnd, len)) :
    parseFrom output pos =
      (match loads (slice output (pos + mEnd) (pos + mEnd + len)) with
        | some msg => [msg]
        | none => []) ++ parseFrom output (pos + mEnd + len) := by
  have h21 := findHeader_le _ _ _ hf
  have h1 : output.length + 1 - pos = (output.length - pos) + 1 := by omega
  unfold parseFrom
  rw [h1]
  simp only [parseLoop, hpos, if_true, hf]
  rw [parseLoop_congr (output.length - pos) (output.length + 1 - (pos + mEnd + len)) output
    (pos + mEnd + len) (by omega) (by omega)]

/-! ## C9, C5, C4: decode-loop behaviour -/

/-- **C9** (decoder termination): whenever the loop finds a header match in
the suffix at `pos`, the matched region spans at least the 21 header
characters, so the next position `json_end = pos + match.end() + length`
strictly exceeds `pos` by at least the header's length plus the declared
byte count — the scan position strictly increases toward the end of the
buffer and the `while` loop of `parse_lsp_responses` terminates. -/
theorem c9_decoder_termination (output : Str) (pos mEnd len : Nat)
    (hf : findHeader (output.drop pos) = some (mEnd, len)) :
    21 ≤ mEnd ∧ pos + (21 + len) ≤ pos + mEnd + len ∧ pos < pos + mEnd + len := by
  have := findHeader_le _ _ _ hf
  exact ⟨this, by omega, by omega⟩

/-- Witness for C9 on a concrete buffer: the header match at position 0 of a
frame declaring 3 bytes ends at offset 21, and the loop position advances
from 0 to 24. -/
theorem c9_decoder_termination_witness :
    findHeader ((codes "Content-Length: 3\x0d\x0a\x0d\x0axyz").drop 0) = some (21, 3) ∧
      (21 ≤ 21 ∧ 0 + (21 + 3) ≤ 0 + 21 + 3 ∧ 0 < 0 + 21 + 3) :=
  ⟨by rfl, c9_decoder_termination (codes "Content-Length: 3\x0d\x0a\x0d\x0axyz") 0 21 3 (by rfl)⟩

/-- **C5** (malformed-frame skip policy): when the declared byte range after a
header match fails to parse as JSON, the decoder consumes exactly up to the
computed `json_end`, raises no error, and continues decoding the rest of the
buffer from there — so every well-formed frame after the malformed region is
still returned. -/
theorem c5_malformed_skip (output : Str) (pos mEnd len : Nat)
    (hpos : pos < output.length)
    (hf : findHeader (output.drop pos) = some (mEnd, len))
    (hbad : loads (slice output (pos + mEnd) (pos + mEnd + len)) = none) :
    parseFrom output pos = parseFrom output (pos + mEnd + len) := by
  rw [parseFrom_step output pos mEnd len hpos hf, hbad]
  rfl

/-- Witness for C5: a frame declaring 3 bytes of non-JSON (`xxx`) followed by a
valid `null` frame; the decoder skips exactly the malformed region (position
0 → 24) and the continuation still recovers the trailing frame. -/
theorem c5_malformed_skip_witness :
    (0 < (codes "Content-Length: 3\x0d\x0a\x0d\x0axxxContent-Length: 4\x0d\x0a\x0d\x0anull").length ∧
      findHeader ((codes "Content-Length: 3\x0d\x0a\x0d\x0axxxContent-Length: 4\x0d\x0a\x0d\x0anull").drop 0) =
        some (21, 3) ∧
      loads (slice (codes "Content-Length: 3\x0d\x0a\x0d\x0axxxContent-Length: 4\x0d\x0a\x0d\x0anull") (0 + 21) (0 + 21 + 3)) = none) ∧
    parseFrom (codes "Content-Length: 3\x0d\x0a\x0d\x0axxxContent-Length: 4\x0d\x0a\x0d\x0anull") 0 =
      parseFrom (codes "Content-Length: 3\x0d\x0a\x0d\x0axxxContent-Length: 4\x0d\x0a\x0d\x0anull") (0 + 21 + 3) :=
  ⟨⟨by decide, by rfl, by rfl⟩,
    c5_malformed_skip _ 0 21 3 (by decide) (by rfl) (by rfl)⟩

/-- **C4, counterexample to the claim as stated**: a buffer ending in a header
that declares 6 bytes while only 3 remain.  Contrary to the claim, the
decoder does *not* leave the region unconsumed and returns no remainder at
all (`parse_lsp_responses` yields only a message list): it truncates the
range at the end of the buffer, and here the truncated slice `123` even
parses as JSON, so the region is consumed as a (wrong) complete message,
silently — no warning is surfaced. -/
theorem c4_counterexample :
    findHeader (codes "Content-Length: 6\x0d\x0a\x0d\x0a123") = some (21, 6) ∧
      (codes "Content-Length: 6\x0d\x0a\x0d\x0a123").length = 24 ∧
      parse_lsp_responses (codes "Content-Length: 6\x0d\x0a\x0d\x0a123") = [.num 123] :=
  ⟨by rfl, by rfl, by rfl⟩

/-- **C4 as amended**: for a buffer ending in a header whose declared length
exceeds the bytes available after it, the decoder attempts to JSON-parse the
truncated available region (yielding a bogus message when that truncated
slice happens to be valid JSON, and nothing otherwise), consumes through the
end of the buffer, and terminates; it returns only the message list — no
unconsumed remainder — and surfaces no warning, but it does not crash. -/
theorem c4_truncated_tail (output : Str) (pos mEnd len : Nat)
    (hpos : pos < output.length)
    (hf : findHeader (output.drop pos) = some (mEnd, len))
    (hover : output.length < pos + mEnd + len) :
    parseFrom output pos =
      (match loads (output.drop (pos + mEnd)) with
        | some msg => [msg]
        | none => []) := by
  rw [parseFrom_step output pos mEnd len hpos hf]
  have h1 : slice output (pos + mEnd) (pos + mEnd + len) = output.drop (pos + mEnd) := by
    unfold slice
    rw [List.take_of_length_le (by omega)]
  have h2 : parseFrom output (pos + mEnd + len) = [] := parseLoop_stop _ _ _ (by omega)
  rw [h1, h2, List.append_nil]

/-- Witness for the amended C4 on the counterexample buffer: the truncated
slice `123` parses, so the decoder emits it and stops. -/
theorem c4_truncated_tail_witness :
    (0 < (codes "Content-Length: 6\x0d\x0a\x0d\x0a123").length ∧
      findHeader ((codes "Content-Length: 6\x0d\x0a\x0d\x0a123").drop 0) = some (21, 6) ∧
      (codes "Content-Length: 6\x0d\x0a\x0d\x0a123").length < 0 + 21 + 6) ∧
    parseFrom (codes "Content-Length: 6\x0d\x0a\x0d\x0a123") 0 =
      (match loads ((codes "Content-Length: 6\x0d\x0a\x0d\x0a123").drop (0 + 21)) with
        | some msg => [msg]
        | none => []) :=
  ⟨⟨by decide, by rfl, by decide⟩,
    c4_truncated_tail _ 0 21 6 (by decide) (by rfl) (by decide)⟩

/-! ## C2, C3, C8, C10: correlators and validators -/

/-- A first-match search: with no match in the prefix and a match at `a`,
`find?` over the concatenation returns `a`. -/
theorem find?_first {α : Type} (p : α → Bool) (l1 l2 : List α) (a : α)
    (h1 : ∀ x ∈ l1, p x = false) (ha : p a = true) :
    (l1 ++ a :: l2).find? p = some a := by
  induction l1 with
  | nil => simp [List.find?, ha]
  | cons b l1 ih =>
    have hb : p b = false := h1 b (by simp)
    simp only [List.cons_append, List.find?, hb]
    exact ih (fun x hx => h1 x (by simp [hx]))

/-- Processing messages none of which has id 2 leaves `hover_tasks` unchanged. -/
theorem hoverFold_fst (l : List Json) :
    ∀ acc : Option Json × Option Json, (∀ m' ∈ l, idEq m' 2 = false) →
      (List.foldl hoverStep acc l).1 = acc.1 := by
  induction l with
  | nil => intro acc _; rfl
  | cons a l ih =>
    intro acc h
    have ha : idEq a 2 = false := h a (by simp)
    have step : (hoverStep acc a).1 = acc.1 := by
      by_cases h3 : idEq a 3 = true
      · simp [hoverStep, ha, h3]
      · simp [hoverStep, ha, h3]
    rw [List.foldl_cons, ih (hoverStep acc a) (fun m' hm' => h m' (by simp [hm'])), step]

/-- **C2, counterexample to the claim as stated**: two distinct messages both
carrying id 2.  The hover correlation loop of `test-hover.py` has no `break`,
so it returns the *second* one — the later duplicate overrides the first,
contradicting "returns the first Response ... every later duplicate is
ignored in favor of the first". -/
theorem c2_counterexample :
    hoverCorrelate
        [.obj [(codes "id", .num 2), (codes "result", .str (codes "A"))],
          .obj [(codes "id", .num 2), (codes "result", .str (codes "B"))]] =
      (some (.obj [(codes "id", .num 2), (codes "result", .str (codes "B"))]), none) ∧
      idEq (.obj [(codes "id", .num 2), (codes "result", .str (codes "A"))]) 2 = true ∧
      Json.obj [(codes "id", .num 2), (codes "result", .str (codes "A"))] ≠
        Json.obj [(codes "id", .num 2), (codes "result", .str (codes "B"))] :=
  ⟨by rfl, by rfl,
    fun h => absurd (congrArg (fun m => pyGetStrD m (codes "result")) h) (by decide)⟩

/-- **C2 as amended**: the correlation loops that `break` (symbols, definition,
completion, formatting, code actions) return the first message whose id
matches; the hover correlation loop keeps the *last* matching message, so
later duplicates override earlier ones there. -/
theorem c2_correlator_first_vs_last :
    (∀ (l1 l2 : List Json) (m : Json) (i : Int),
        (∀ m' ∈ l1, idEq m' i = false) → idEq m i = true →
        correlateFirst (l1 ++ m :: l2) i = some m) ∧
    (∀ (l1 l2 : List Json) (m : Json),
        idEq m 2 = true → (∀ m' ∈ l2, idEq m' 2 = false) →
        (hoverCorrelate (l1 ++ m :: l2)).1 = some m) := by
  constructor
  · intro l1 l2 m i h1 hm
    exact find?_first (fun m' => idEq m' i) l1 l2 m h1 hm
  · intro l1 l2 m hm h2
    unfold hoverCorrelate
    rw [List.foldl_append, List.foldl_cons,
      hoverFold_fst l2 (hoverStep (List.foldl hoverStep (none, none) l1) m) h2]
    simp [hoverStep, hm]

/-- Witness for C2: a capture `[id 3 msg, id 2 msg, second id 2 msg]`; the
break-style correlator picks the first id 2 message, and a capture
`[stale id 2 msg, id 2 msg, id 3 msg]` where the hover loop keeps the last
id 2 message. -/
theorem c2_correlator_first_vs_last_witness :
    ((∀ m' ∈ [Json.obj [(codes "id", .num 3)]], idEq m' 2 = false) ∧
      idEq (.obj [(codes "id", .num 2), (codes "result", .str (codes "A"))]) 2 = true ∧
      correlateFirst
          [.obj [(codes "id", .num 3)],
            .obj [(codes "id", .num 2), (codes "result", .str (codes "A"))],
            .obj [(codes "id", .num 2), (codes "result", .str (codes "B"))]] 2 =
        some (.obj [(codes "id", .num 2), (codes "result", .str (codes "A"))])) ∧
    ((∀ m' ∈ [Json.obj [(codes "id", .num 3)]], idEq m' 2 = false) ∧
      (hoverCorrelate
          [.obj [(codes "id", .num 2), (codes "result", .str (codes "A"))],
            .obj [(codes "id", .num 2), (codes "result", .str (codes "B"))],
            .obj [(codes "id", .num 3)]]).1 =
        some (.obj [(codes "id", .num 2), (codes "result", .str (codes "B"))])) :=
  ⟨⟨by decide, by rfl,
      c2_correlator_first_vs_last.1 [.obj [(codes "id", .num 3)]]
        [.obj [(codes "id", .num 2), (codes "result", .str (codes "B"))]]
        (.obj [(codes "id", .num 2), (codes "result", .str (codes "A"))]) 2
        (by decide) (by rfl)⟩,
    ⟨by decide,
      c2_correlator_first_vs_last.2
        [.obj [(codes "id", .num 2), (codes "result", .str (codes "A"))]]
        [.obj [(codes "id", .num 3)]]
        (.obj [(codes "id", .num 2), (codes "result", .str (codes "B"))])
        (by rfl) (by decide)⟩⟩

/-- **C3, counterexample to the claim as stated**: a capture whose hover
response for id 2 carries a `null` result (and whose id 3 hover response
would pass).  The claim requires a Pass verdict; `test-hover.py` instead
takes the `else` branch at lines 134–136, sets `success = False`, and exits
with status 1. -/
theorem c3_counterexample :
    (hoverCorrelate
        [.obj [(codes "id", .num 2), (codes "result", .null)],
          .obj [(codes "id", .num 3),
            (codes "result", .obj [(codes "contents", .obj [(codes "value", .str (codes "Pipeline docs"))])])]]).1 =
      some (.obj [(codes "id", .num 2), (codes "result", .null)]) ∧
    pyGet (.obj [(codes "id", .num 2), (codes "result", .null)]) (codes "result") = some .null ∧
    hoverSuccess
        [.obj [(codes "id", .num 2), (codes "result", .null)],
          .obj [(codes "id", .num 3),
            (codes "result", .obj [(codes "contents", .obj [(codes "value", .str (codes "Pipeline docs"))])])]] = false ∧
    hoverExitCode
        [.obj [(codes "id", .num 2), (codes "result", .null)],
          .obj [(codes "id", .num 3),
            (codes "result", .obj [(codes "contents", .obj [(codes "value", .str (codes "Pipeline docs"))])])]] = 1 :=
  ⟨by rfl, by rfl, by rfl, by rfl⟩

/-- **C3 as amended**: a capture in which the hover request's correlated
response has a null or absent result makes the hover validator report
*failure* (`success = False`, exit status 1), not Pass. -/
theorem c3_null_hover_fails (messages : List Json)
    (h : (hoverCorrelate messages).1 = none ∨
      ∃ m, (hoverCorrelate messages).1 = some m ∧
        (pyGet m (codes "result") = none ∨ pyGet m (codes "result") = some .null)) :
    hoverSuccess messages = false ∧ hoverExitCode messages = 1 := by
  have hb : hoverBranchOk (hoverCorrelate messages).1 [codes "tasks", codes "pipelinetask"] = false := by
    rcases h with h | ⟨m, hm, hr⟩
    · rw [h]; rfl
    · rw [hm]
      rcases hr with hr | hr <;>
        cases hpt : pyTruthy m <;> simp [hoverBranchOk, hr, hpt, pyTruthy]
  refine ⟨?_, ?_⟩
  · unfold hoverSuccess
    rw [hb, Bool.false_and]
  · unfold hoverExitCode hoverSuccess
    rw [hb, Bool.false_and]
    rfl

/-- Witness for the amended C3 at the counterexample capture. -/
theorem c3_null_hover_fails_witness :
    hoverSuccess
        [.obj [(codes "id", .num 2), (codes "result", .null)],
          .obj [(codes "id", .num 3),
            (codes "result", .obj [(codes "contents", .obj [(codes "value", .str (codes "Pipeline docs"))])])]] = false ∧
    hoverExitCode
        [.obj [(codes "id", .num 2), (codes "result", .null)],
          .obj [(codes "id", .num 3),
            (codes "result", .obj [(codes "contents", .obj [(codes "value", .str (codes "Pipeline docs"))])])]] = 1 :=
  c3_null_hover_fails _ (Or.inr ⟨.obj [(codes "id", .num 2), (codes "result", .null)], by rfl, Or.inr (by rfl)⟩)

/-- A successful `.get` needs a non-empty object, which is truthy. -/
theorem pyGet_some_truthy (j : Json) (k : Str) (v : Json) (h : pyGet j k = some v) :
    pyTruthy j = true := by
  cases j with
  | obj kvs =>
    cases kvs with
    | nil => exact absurd h (by simp [pyGet, List.find?])
    | cons a t => rfl
  | null => exact absurd h (by simp [pyGet])
  | bool b => exact absurd h (by simp [pyGet])
  | num i => exact absurd h (by simp [pyGet])
  | str s => exact absurd h (by simp [pyGet])
  | arr xs => exact absurd h (by simp [pyGet])

/-- **C8, counterexample to the claim as stated**: the empty capture holds no
definition response at all, yet `test-definition.py` leaves `success = True`
(lines 153–157 only print a note) and exits with status 0 — not the non-zero
status the claim requires for a capture without a matching location. -/
theorem c8_counterexample :
    correlateFirst ([] : List Json) 2 = none ∧
      defSuccess [] = true ∧ defExitCode [] = 0 :=
  ⟨by rfl, by rfl, by rfl⟩

/-- **C8 as amended**: the definition scenario exits non-zero only when a
definition response with a truthy result is present and that result — an
object, or the first element of a non-empty list — lacks a uri containing
`build-task.yaml` (or has an unexpected shape).  A capture with no response
for the request id, or with an absent/null result, exits 0. -/
theorem c8_definition_verdict :
    (∀ messages : List Json, correlateFirst messages 2 = none → defExitCode messages = 0) ∧
    (∀ (messages : List Json) (resp : Json), correlateFirst messages 2 = some resp →
        (pyGet resp (codes "result") = none ∨ pyGet resp (codes "result") = some .null) →
        defExitCode messages = 0) ∧
    (∀ (messages : List Json) (resp res : Json), correlateFirst messages 2 = some resp →
        pyGet resp (codes "result") = some res → pyTruthy res = true →
        defSuccess messages =
          (match res with
            | .obj _ => containsSub (codes "build-task.yaml") (pyGetStrD res (codes "uri"))
            | .arr (first :: _) => containsSub (codes "build-task.yaml") (pyGetStrD first (codes "uri"))
            | _ => false)) := by
  refine ⟨?_, ?_, ?_⟩
  · intro messages h
    unfold defExitCode defSuccess
    rw [h]
    rfl
  · intro messages resp hc hr
    unfold defExitCode defSuccess
    rw [hc]
    rcases hr with hr | hr <;> cases hpt : pyTruthy resp <;> simp [hpt, hr, pyTruthy]
  · intro messages resp res hc hr hres
    have htr : pyTruthy resp = true := pyGet_some_truthy _ _ _ hr
    unfold defSuccess
    rw [hc]
    simp [htr, hr, hres]

/-- Witness for the amended C8: the empty capture exits 0; a null result exits
0; a truthy object result pointing at the Task file passes the containment
test. -/
theorem c8_definition_verdict_witness :
    (correlateFirst ([] : List Json) 2 = none ∧ defExitCode [] = 0) ∧
    (defExitCode [Json.obj [(codes "id", .num 2), (codes "result", .null)]] = 0) ∧
    (defSuccess [Json.obj [(codes "id", .num 2),
        (codes "result", .obj [(codes "uri", .str (codes "file:///tmp/tasks/build-task.yaml"))])]] =
      containsSub (codes "build-task.yaml")
        (pyGetStrD (.obj [(codes "uri", .str (codes "file:///tmp/tasks/build-task.yaml"))]) (codes "uri"))) :=
  ⟨⟨by rfl, c8_definition_verdict.1 [] (by rfl)⟩,
    c8_definition_verdict.2.1 [Json.obj [(codes "id", .num 2), (codes "result", .null)]]
      (.obj [(codes "id", .num 2), (codes "result", .null)]) (by rfl) (Or.inr (by rfl)),
    c8_definition_verdict.2.2
      [Json.obj [(codes "id", .num 2),
        (codes "result", .obj [(codes "uri", .str (codes "file:///tmp/tasks/build-task.yaml"))])]]
      (.obj [(codes "id", .num 2),
        (codes "result", .obj [(codes "uri", .str (codes "file:///tmp/tasks/build-task.yaml"))])])
      (.obj [(codes "uri", .str (codes "file:///tmp/tasks/build-task.yaml"))])
      (by rfl) (by rfl) (by rfl)⟩

/-- **C10** (absent-diagnostics conflation): `validate_tekton_file` yields the
empty list both when the capture contains a `publishDiagnostics` notification
whose diagnostics list is empty and when the capture contains no
`publishDiagnostics` notification at all; in both cases the `__main__` block
takes the success branch (the "No issues found!" print) and exits with
status 0, so the two situations are indistinguishable. -/
theorem c10_diagnostics_conflation :
    (∀ messages : List Json, (∀ m ∈ messages, isPubDiag m = false) →
        diagResult messages = .arr [] ∧ checkExitCode messages = 0) ∧
    (∀ (l1 l2 : List Json) (msg : Json), (∀ m ∈ l1, isPubDiag m = false) →
        isPubDiag msg = true →
        pyGet ((pyGet msg (codes "params")).getD (.obj [])) (codes "diagnostics") = some (.arr []) →
        diagResult (l1 ++ msg :: l2) = .arr [] ∧ checkExitCode (l1 ++ msg :: l2) = 0) := by
  constructor
  · intro messages h
    have hf : messages.find? isPubDiag = none := by
      rw [List.find?_eq_none]
      intro x hx
      simp [h x hx]
    constructor
    · unfold diagResult
      rw [hf]
    · unfold checkExitCode diagResult
      rw [hf]
      rfl
  · intro l1 l2 msg h1 hm hd
    have hf : (l1 ++ msg :: l2).find? isPubDiag = some msg := find?_first isPubDiag l1 l2 msg h1 hm
    constructor
    · unfold diagResult
      rw [hf]
      simp [hd]
    · unfold checkExitCode diagResult
      rw [hf]
      simp [hd, pyTruthy]

/-- Witness for C10: a capture with only a non-diagnostics message, and a
capture with exactly one `publishDiagnostics` notification carrying an empty
list — both yield the empty diagnostics value and exit status 0. -/
theorem c10_diagnostics_conflation_witness :
    (diagResult [Json.obj [(codes "id", .num 1), (codes "result", .obj [])]] = .arr [] ∧
      checkExitCode [Json.obj [(codes "id", .num 1), (codes "result", .obj [])]] = 0) ∧
    (diagResult [Json.obj [(codes "method", .str (codes "textDocument/publishDiagnostics")),
        (codes "params", .obj [(codes "diagnostics", .arr [])])]] = .arr [] ∧
      checkExitCode [Json.obj [(codes "method", .str (codes "textDocument/publishDiagnostics")),
        (codes "params", .obj [(codes "diagnostics", .arr [])])]] = 0) :=
  ⟨c10_diagnostics_conflation.1 [Json.obj [(codes "id", .num 1), (codes "result", .obj [])]]
      (by decide),
    c10_diagnostics_conflation.2 [] []
      (.obj [(codes "method", .str (codes "textDocument/publishDiagnostics")),
        (codes "params", .obj [(codes "diagnostics", .arr [])])])
      (by decide) (by rfl) (by rfl)⟩

/-! ## Decimal digits round-trip -/

theorem isDigitB_iff (c : Nat) : isDigitB c = true ↔ 48 ≤ c ∧ c ≤ 57 := by
  simp [isDigitB]

theorem digitsToNat_append (ds : Str) (d : Nat) :
    digitsToNat (ds ++ [d]) = digitsToNat ds * 10 + (d - 48) := by
  unfold digitsToNat
  rw [List.foldl_append]
  rfl

/-- The fueled decimal printer, with `n < fuel`: all output characters are
digits, output non-empty, and `int()` reads the value back. -/
theorem natToDigits_spec (fuel : Nat) :
    ∀ n, n < fuel →
      (∀ c ∈ natToDigits fuel n, isDigitB c = true) ∧
      natToDigits fuel n ≠ [] ∧
      digitsToNat (natToDigits fuel n) = n := by
  induction fuel with
  | zero => intro n h; omega
  | succ f ih =>
    intro n hn
    by_cases h10 : n < 10
    · refine ⟨?_, ?_, ?_⟩
      · intro c hc
        simp only [natToDigits, if_pos h10, List.mem_singleton] at hc
        subst hc
        rw [isDigitB_iff]
        omega
      · simp [natToDigits, if_pos h10]
      · simp only [natToDigits, if_pos h10, digitsToNat, List.foldl_cons, List.foldl_nil]
        omega
    · obtain ⟨hd, hne, hv⟩ := ih (n / 10) (by omega)
      refine ⟨?_, ?_, ?_⟩
      · intro c hc
        simp only [natToDigits, if_neg h10, List.mem_append, List.mem_singleton] at hc
        rcases hc with hc | hc
        · exact hd c hc
        · subst hc
          rw [isDigitB_iff]
          omega
      · simp [natToDigits, if_neg h10]
      · rw [natToDigits, if_neg h10, digitsToNat_append, hv]
        omega

/-- For positive `n` the printed digits start with a nonzero digit. -/
theorem natToDigits_head (fuel : Nat) :
    ∀ n, n < fuel → 1 ≤ n →
      ∃ d t, natToDigits fuel n = d :: t ∧ isDigitB d = true ∧ d ≠ 48 := by
  induction fuel with
  | zero => intro n h; omega
  | succ f ih =>
    intro n hn h1
    by_cases h10 : n < 10
    · exact ⟨48 + n, [], by simp [natToDigits, if_pos h10], by rw [isDigitB_iff]; omega, by omega⟩
    · obtain ⟨d, t, ht, hdig, hd48⟩ := ih (n / 10) (by omega) (by omega)
      exact ⟨d, t ++ [48 + n % 10], by rw [natToDigits, if_neg h10, ht]; rfl, hdig, hd48⟩

theorem natToStr_all_digit (n : Nat) : ∀ c ∈ natToStr n, isDigitB c = true :=
  (natToDigits_spec (n + 1) n (by omega)).1

theorem natToStr_ne_nil (n : Nat) : natToStr n ≠ [] :=
  (natToDigits_spec (n + 1) n (by omega)).2.1

theorem natToStr_toNat (n : Nat) : digitsToNat (natToStr n) = n :=
  (natToDigits_spec (n + 1) n (by omega)).2.2

theorem natToStr_zero : natToStr 0 = [48] := rfl

theorem natToStr_head_pos (n : Nat) (h : 1 ≤ n) :
    ∃ d t, natToStr n = d :: t ∧ isDigitB d = true ∧ d ≠ 48 :=
  natToDigits_head (n + 1) n (by omega) h

/-! ## takeWhile / dropWhile / prefix helpers -/

theorem takeWhile_append_all (p : Nat → Bool) (l : Str) :
    ∀ r : Str, (∀ c ∈ l, p c = true) →
      (l ++ r).takeWhile p = l ++ r.takeWhile p := by
  induction l with
  | nil => intro r _; rfl
  | cons a l ih =>
    intro r h
    have ha : p a = true := h a (by simp)
    simp only [List.cons_append, List.takeWhile_cons, ha, if_true]
    rw [ih r (fun c hc => h c (by simp [hc]))]

theorem dropWhile_append_all (p : Nat → Bool) (l : Str) :
    ∀ r : Str, (∀ c ∈ l, p c = true) →
      (l ++ r).dropWhile p = r.dropWhile p := by
  induction l with
  | nil => intro r _; rfl
  | cons a l ih =>
    intro r h
    have ha : p a = true := h a (by simp)
    simp only [List.cons_append, List.dropWhile_cons, ha, if_true]
    exact ih r (fun c hc => h c (by simp [hc]))

theorem isPrefixOf_append_self (l r : Str) : l.isPrefixOf (l ++ r) = true := by
  induction l with
  | nil => simp [List.isPrefixOf]
  | cons a l ih => simp [List.isPrefixOf, ih]

/-! ## Facts about `numEndOk` continuations -/

theorem numEndOk_takeWhile (rest : Str) (h : numEndOk rest = true) :
    rest.takeWhile isDigitB = [] := by
  cases rest with
  | nil => rfl
  | cons c t =>
    simp only [numEndOk, Bool.and_eq_true, Bool.not_eq_true'] at h
    simp [List.takeWhile_cons, h.1.1.1]

theorem numEndOk_dropWhile (rest : Str) (h : numEndOk rest = true) :
    rest.dropWhile isDigitB = rest := by
  cases rest with
  | nil => rfl
  | cons c t =>
    simp only [numEndOk, Bool.and_eq_true, Bool.not_eq_true'] at h
    simp [List.dropWhile_cons, h.1.1.1]

theorem numEndOk_floatStart (rest : Str) (h : numEndOk rest = true) :
    floatStart rest = false := by
  cases rest with
  | nil => rfl
  | cons c t =>
    simp only [numEndOk, Bool.and_eq_true, Bool.not_eq_true'] at h
    simp only [floatStart, Bool.or_eq_false_iff, decide_eq_false_iff_not]
    refine ⟨⟨?_, ?_⟩, ?_⟩ <;> intro hc <;> subst hc
    · exact absurd h.1.1.2 (by simp)
    · exact absurd h.1.2 (by simp)
    · exact absurd h.2 (by simp)

/-! ## Hex digits round-trip -/

theorem parseHexDig_hexDig (d : Nat) (h : d < 16) : parseHexDig (hexDig d) = some d := by
  unfold hexDig parseHexDig
  by_cases h10 : d < 10
  · rw [if_pos h10, if_pos (by omega)]
    congr 1
    omega
  · rw [if_neg h10, if_neg (by omega), if_pos (by omega)]
    congr 1
    omega

theorem parseHex4_hex4 (n : Nat) (h : n < 65536) :
    parseHex4 (hexDig (n / 4096 % 16)) (hexDig (n / 256 % 16)) (hexDig (n / 16 % 16)) (hexDig (n % 16)) = some n := by
  unfold parseHex4
  rw [parseHexDig_hexDig _ (by omega), parseHexDig_hexDig _ (by omega),
    parseHexDig_hexDig _ (by omega), parseHexDig_hexDig _ (by omega)]
  show some (4096 * (n / 4096 % 16) + 256 * (n / 256 % 16) + 16 * (n / 16 % 16) + n % 16) = some n
  congr 1
  omega

/-! ## String escaping round-trip -/

theorem escapeChar_length_pos (c : Nat) : 1 ≤ (escapeChar c).length := by
  unfold escapeChar
  by_cases h34 : c = 34
  · rw [if_pos h34]; simp
  rw [if_neg h34]
  by_cases h92 : c = 92
  · rw [if_pos h92]; simp
  rw [if_neg h92]
  by_cases h8 : c = 8
  · rw [if_pos h8]; simp
  rw [if_neg h8]
  by_cases h9 : c = 9
  · rw [if_pos h9]; simp
  rw [if_neg h9]
  by_cases h10 : c = 10
  · rw [if_pos h10]; simp
  rw [if_neg h10]
  by_cases h12 : c = 12
  · rw [if_pos h12]; simp
  rw [if_neg h12]
  by_cases h13 : c = 13
  · rw [if_pos h13]; simp
  rw [if_neg h13]
  by_cases h32 : c < 32
  · rw [if_pos h32]; simp
  rw [if_neg h32]
  by_cases h126 : c ≤ 126
  · rw [if_pos h126]; simp
  rw [if_neg h126]
  by_cases h64k : c < 65536
  · rw [if_pos h64k]; simp
  rw [if_neg h64k]
  simp

theorem escList_length_ge (s : Str) : s.length ≤ (s.flatMap escapeChar).length := by
  induction s with
  | nil => simp
  | cons c s ih =>
    simp only [List.flatMap_cons, List.length_append, List.length_cons]
    have h1 := escapeChar_length_pos c
    omega

theorem wfCp_facts (c : Nat) (h : wfCp c = true) :
    c < 1114112 ∧ (c < 55296 ∨ 57343 < c) := by
  simp only [wfCp, Bool.and_eq_true, Bool.not_eq_true', Bool.and_eq_false_iff,
    decide_eq_true_eq, decide_eq_false_iff_not] at h
  omega

/-- Scanning a `\uXXXX` escape of a non-high-surrogate value yields that value. -/
theorem parseStrBodyF_uEsc (f n : Nat) (tail : Str) (hn : n < 65536)
    (hsur : ¬(55296 ≤ n ∧ n ≤ 56319)) :
    parseStrBodyF (f + 1) (92 :: 117 :: (hex4 n ++ tail)) =
      Option.map (fun p => (n :: p.1, p.2)) (parseStrBodyF f tail) := by
  have hx := parseHex4_hex4 n hn
  simp [hex4, parseStrBodyF, hx, hsur]

/-- Scanning a surrogate-pair escape recombines it into one code point. -/
theorem parseStrBodyF_pairEsc (f hi lo : Nat) (tail : Str)
    (hhi : 55296 ≤ hi ∧ hi ≤ 56319) (hlo : 56320 ≤ lo ∧ lo ≤ 57343) :
    parseStrBodyF (f + 1) (92 :: 117 :: (hex4 hi ++ (92 :: 117 :: (hex4 lo ++ tail)))) =
      Option.map (fun p => ((65536 + (hi - 55296) * 1024 + (lo - 56320)) :: p.1, p.2))
        (parseStrBodyF f tail) := by
  have hx1 := parseHex4_hex4 hi (by omega)
  have hx2 := parseHex4_hex4 lo (by omega)
  simp [hex4, parseStrBodyF, lowSurrogateAt, hx1, hx2, hhi.1, hhi.2, hlo.1, hlo.2]

set_option maxRecDepth 4000 in
/-- Scanning the `json.dumps` escape of a well-formed string recovers it:
the decoder's string scan inverts the encoder's escaping. -/
theorem parseStrBodyF_escape (s : Str) :
    ∀ (fuel : Nat) (rest : Str), wfStr s = true → s.length < fuel →
      parseStrBodyF fuel (s.flatMap escapeChar ++ 34 :: rest) = some (s, rest) := by
  induction s with
  | nil =>
    intro fuel rest _ hfuel
    obtain ⟨f, rfl⟩ : ∃ f, fuel = f + 1 := ⟨fuel - 1, by omega⟩
    simp [parseStrBodyF]
  | cons c s ih =>
    intro fuel rest hwf hfuel
    obtain ⟨f, rfl⟩ : ∃ f, fuel = f + 1 := ⟨fuel - 1, by omega⟩
    have hwfc : wfCp c = true ∧ wfStr s = true := by simpa [wfStr] using hwf
    have hrec := ih f rest hwfc.2 (by simp only [List.length_cons] at hfuel; omega)
    obtain ⟨hlt, hsur⟩ := wfCp_facts c hwfc.1
    by_cases h34 : c = 34
    · subst h34
      simpa [escapeChar, parseStrBodyF] using congrArg (Option.map (fun p => (34 :: p.1, p.2))) hrec
    · by_cases h92 : c = 92
      · subst h92
        simpa [escapeChar, parseStrBodyF] using congrArg (Option.map (fun p => (92 :: p.1, p.2))) hrec
      · by_cases h8 : c = 8
        · subst h8
          simpa [escapeChar, parseStrBodyF] using congrArg (Option.map (fun p => (8 :: p.1, p.2))) hrec
        · by_cases h9 : c = 9
          · subst h9
            simpa [escapeChar, parseStrBodyF] using congrArg (Option.map (fun p => (9 :: p.1, p.2))) hrec
          · by_cases h10 : c = 10
            · subst h10
              simpa [escapeChar, parseStrBodyF] using congrArg (Option.map (fun p => (10 :: p.1, p.2))) hrec
            · by_cases h12 : c = 12
              · subst h12
                simpa [escapeChar, parseStrBodyF] using congrArg (Option.map (fun p => (12 :: p.1, p.2))) hrec
              · by_cases h13 : c = 13
                · subst h13
                  simpa [escapeChar, parseStrBodyF] using congrArg (Option.map (fun p => (13 :: p.1, p.2))) hrec
                · by_cases h32 : c < 32
                  · -- control character: `\u00XX` escape
                    have hesc : escapeChar c = 92 :: 117 :: hex4 c := by
                      unfold escapeChar
                      rw [if_neg h34, if_neg h92, if_neg h8, if_neg h9, if_neg h10,
                        if_neg h12, if_neg h13, if_pos h32]
                    rw [List.flatMap_cons, hesc]
                    simp only [List.cons_append, List.append_assoc]
                    rw [parseStrBodyF_uEsc f c (s.flatMap escapeChar ++ 34 :: rest) (by omega)
                      (by omega), hrec]
                    rfl
                  · by_cases h126 : c ≤ 126
                    · -- printable ASCII kept literally
                      have hesc : escapeChar c = [c] := by
                        unfold escapeChar
                        rw [if_neg h34, if_neg h92, if_neg h8, if_neg h9, if_neg h10,
                          if_neg h12, if_neg h13, if_neg h32, if_pos h126]
                      rw [List.flatMap_cons, hesc]
                      simp only [List.cons_append, List.singleton_append, List.nil_append]
                      simp only [parseStrBodyF]
                      rw [if_neg h34, if_neg h92, if_neg h32, hrec]
                      rfl
                    · by_cases h64k : c < 65536
                      · -- BMP character: single `\uXXXX` escape
                        have hesc : escapeChar c = 92 :: 117 :: hex4 c := by
                          unfold escapeChar
                          rw [if_neg h34, if_neg h92, if_neg h8, if_neg h9, if_neg h10,
                            if_neg h12, if_neg h13, if_neg h32, if_neg h126, if_pos h64k]
                        rw [List.flatMap_cons, hesc]
                        simp only [List.cons_append, List.append_assoc]
                        rw [parseStrBodyF_uEsc f c (s.flatMap escapeChar ++ 34 :: rest) h64k
                          (by omega), hrec]
                        rfl
                      · -- astral character: surrogate-pair escape
                        have hesc : escapeChar c =
                            92 :: 117 :: hex4 (55296 + (c - 65536) / 1024) ++
                              (92 :: 117 :: hex4 (56320 + (c - 65536) % 1024)) := by
                          unfold escapeChar
                          rw [if_neg h34, if_neg h92, if_neg h8, if_neg h9, if_neg h10,
                            if_neg h12, if_neg h13, if_neg h32, if_neg h126, if_neg h64k]
                        rw [List.flatMap_cons, hesc]
                        simp only [List.cons_append, List.append_assoc]
                        rw [parseStrBodyF_pairEsc f (55296 + (c - 65536) / 1024)
                          (56320 + (c - 65536) % 1024) (s.flatMap escapeChar ++ 34 :: rest)
                          (by omega) (by omega), hrec]
                        simp only [Option.map_some']
                        have harith : 65536 + (55296 + (c - 65536) / 1024 - 55296) * 1024 +
                            (56320 + (c - 65536) % 1024 - 56320) = c := by omega
                        rw [harith]

/-! ## Number round-trip and wrapper lemmas -/

theorem parseNumBody_natToStr (n : Nat) (rest : Str) (hrest : numEndOk rest = true) :
    parseNumBody (natToStr n ++ rest) = some (n, rest) := by
  by_cases h0 : n = 0
  · subst h0
    rw [natToStr_zero]
    simp only [List.cons_append, List.nil_append, parseNumBody]
    rw [if_pos (by rw [isDigitB_iff]; omega)]
    simp only [if_true]
    rw [numEndOk_floatStart rest hrest]
    simp [digitsToNat]
  · obtain ⟨d, t, hdt, hdig, hd48⟩ := natToStr_head_pos n (by omega)
    have hta : ∀ c ∈ t, isDigitB c = true := by
      intro c hc
      exact natToStr_all_digit n c (by rw [hdt]; exact List.mem_cons_of_mem d hc)
    rw [hdt]
    simp only [List.cons_append, parseNumBody]
    rw [if_pos hdig]
    simp only [if_neg hd48]
    rw [takeWhile_append_all _ t rest hta, numEndOk_takeWhile rest hrest, List.append_nil,
      dropWhile_append_all _ t rest hta, numEndOk_dropWhile rest hrest,
      numEndOk_floatStart rest hrest]
    simp only [if_neg Bool.false_ne_true]
    rw [show (d :: t) = natToStr n from hdt.symm, natToStr_toNat]

theorem parseNumber_intToStr (i : Int) (rest : Str) (hrest : numEndOk rest = true) :
    parseNumber (intToStr i ++ rest) = some (.num i, rest) := by
  by_cases hneg : i < 0
  · rw [intToStr, if_pos hneg]
    simp only [List.cons_append, parseNumber, if_true]
    rw [parseNumBody_natToStr _ _ hrest]
    simp only [Option.map_some']
    have harith : -((i.natAbs : Nat) : Int) = i := by omega
    rw [harith]
  · rw [intToStr, if_neg hneg]
    cases hds : natToStr i.toNat with
    | nil => exact absurd hds (natToStr_ne_nil _)
    | cons d t =>
      have hdig : isDigitB d = true := natToStr_all_digit i.toNat d (by rw [hds]; simp)
      simp only [List.cons_append, parseNumber]
      rw [if_neg (by rw [isDigitB_iff] at hdig; omega), ← List.cons_append, ← hds,
        parseNumBody_natToStr _ _ hrest]
      simp only [Option.map_some']
      have harith : ((i.toNat : Nat) : Int) = i := by omega
      rw [harith]

theorem parseStrBody_escape (s : Str) (rest : Str) (hwf : wfStr s = true) :
    parseStrBody (s.flatMap escapeChar ++ 34 :: rest) = some (s, rest) := by
  unfold parseStrBody
  apply parseStrBodyF_escape s _ rest hwf
  have := escList_length_ge s
  simp only [List.length_append, List.length_cons]
  omega

/-! ## Heads of serialized values -/

theorem digit_not_ws (d : Nat) (h : isDigitB d = true) :
    isWsB d = false ∧ d ≠ 93 ∧ d ≠ 125 ∧ d ≠ 44 := by
  rw [isDigitB_iff] at h
  refine ⟨by simp [isWsB]; omega, by omega, by omega, by omega⟩

/-- Every serialized JSON value starts with a character that is not
whitespace, not a closing bracket or brace, and not a comma. -/
theorem dumps_head (m : Json) :
    ∃ c t, dumps m = c :: t ∧ isWsB c = false ∧ c ≠ 93 ∧ c ≠ 125 ∧ c ≠ 44 := by
  cases m with
  | null => exact ⟨110, [117, 108, 108], rfl, by decide, by decide, by decide, by decide⟩
  | bool b =>
    cases b with
    | true => exact ⟨116, [114, 117, 101], rfl, by decide, by decide, by decide, by decide⟩
    | false => exact ⟨102, [97, 108, 115, 101], rfl, by decide, by decide, by decide, by decide⟩
  | num i =>
    by_cases hneg : i < 0
    · exact ⟨45, natToStr i.natAbs, by simp [dumps, intToStr, hneg], by decide, by decide,
        by decide, by decide⟩
    · cases hds : natToStr i.toNat with
      | nil => exact absurd hds (natToStr_ne_nil _)
      | cons d t =>
        have hdig : isDigitB d = true := natToStr_all_digit i.toNat d (by rw [hds]; simp)
        obtain ⟨hws, h93, h125, h44⟩ := digit_not_ws d hdig
        exact ⟨d, t, by simp [dumps, intToStr, hneg, hds], hws, h93, h125, h44⟩
  | str s =>
    exact ⟨34, s.flatMap escapeChar ++ [34], by simp [dumps, dumpStr], by decide, by decide,
      by decide, by decide⟩
  | arr xs =>
    cases xs with
    | nil => exact ⟨91, [93], rfl, by decide, by decide, by decide, by decide⟩
    | cons x xs =>
      exact ⟨91, (dumps x ++ dumpsArrTail xs) ++ [93], by simp [dumps], by decide, by decide,
        by decide, by decide⟩
  | obj kvs =>
    cases kvs with
    | nil => exact ⟨123, [125], rfl, by decide, by decide, by decide, by decide⟩
    | cons kv kvs =>
      obtain ⟨k, v⟩ := kv
      exact ⟨123, (dumpStr k ++ (58 :: 32 :: dumps v) ++ dumpsObjTail kvs) ++ [125],
        by simp [dumps], by decide, by decide, by decide, by decide⟩

theorem skipWs_not_ws (c : Nat) (t : Str) (h : isWsB c = false) : skipWs (c :: t) = c :: t := by
  simp [skipWs, h]

theorem skipWs_dumps (m : Json) (r : Str) : skipWs (dumps m ++ r) = dumps m ++ r := by
  obtain ⟨c, t, hct, hws, -, -, -⟩ := dumps_head m
  rw [hct, List.cons_append, skipWs_not_ws c _ hws]

theorem numEndOk_arrTail (xs : List Json) (rest : Str) :
    numEndOk (dumpsArrTail xs ++ 93 :: rest) = true := by
  cases xs with
  | nil => simp [dumpsArrTail, numEndOk, isDigitB]
  | cons x xs => simp [dumpsArrTail, numEndOk, isDigitB]

theorem numEndOk_objTail (kvs : List (Str × Json)) (rest : Str) :
    numEndOk (dumpsObjTail kvs ++ 125 :: rest) = true := by
  cases kvs with
  | nil => simp [dumpsObjTail, numEndOk, isDigitB]
  | cons kv kvs =>
    obtain ⟨k, v⟩ := kv
    simp [dumpsObjTail, numEndOk, isDigitB]

/-! ## `dict` construction on distinct keys is the identity -/

theorem upsert_of_not_mem (k : Str) (v : Json) (acc : List (Str × Json))
    (h : ∀ kv ∈ acc, kv.1 ≠ k) : upsert k v acc = acc ++ [(k, v)] := by
  induction acc with
  | nil => rfl
  | cons a acc ih =>
    have ha : a.1 ≠ k := h a (by simp)
    obtain ⟨a1, a2⟩ := a
    simp only [upsert, if_neg ha, List.cons_append]
    rw [ih (fun kv hkv => h kv (by simp [hkv]))]

theorem nodupKeys_split (l1 : List (Str × Json)) :
    ∀ l2, nodupKeys (l1 ++ l2) = true →
      nodupKeys l2 = true ∧ ∀ kv ∈ l1, ∀ kv2 ∈ l2, kv.1 ≠ kv2.1 := by
  induction l1 with
  | nil => intro l2 h; exact ⟨h, by simp⟩
  | cons a l1 ih =>
    intro l2 h
    obtain ⟨a1, a2⟩ := a
    simp only [List.cons_append, nodupKeys, Bool.and_eq_true, Bool.not_eq_true'] at h
    obtain ⟨hany, hrest⟩ := h
    obtain ⟨h2, h12⟩ := ih l2 hrest
    refine ⟨h2, ?_⟩
    intro kv hkv kv2 hkv2
    rcases List.mem_cons.mp hkv with rfl | hkv'
    · intro heq
      have hc : (l1.append l2).any (fun kv => kv.1 == a1) = true :=
        List.any_eq_true.mpr ⟨kv2, List.mem_append_right l1 hkv2, by simp [heq.symm]⟩
      rw [hany] at hc
      exact Bool.false_ne_true hc
    · exact h12 kv hkv' kv2 hkv2

theorem dedup_foldl (kvs : List (Str × Json)) :
    ∀ acc, nodupKeys (acc ++ kvs) = true →
      List.foldl (fun acc kv => upsert kv.1 kv.2 acc) acc kvs = acc ++ kvs := by
  induction kvs with
  | nil => intro acc _; simp
  | cons kv0 kvs ih =>
    intro acc h
    have hup : upsert kv0.1 kv0.2 acc = acc ++ [kv0] := by
      apply upsert_of_not_mem
      intro kv hkv
      exact (nodupKeys_split acc _ h).2 kv hkv kv0 (by simp)
    have hassoc : (acc ++ [kv0]) ++ kvs = acc ++ kv0 :: kvs := by simp
    rw [List.foldl_cons, hup, ih (acc ++ [kv0]) (by rw [hassoc]; exact h), hassoc]

theorem dedupKeys_of_nodup (kvs : List (Str × Json)) (h : nodupKeys kvs = true) :
    dedupKeys kvs = kvs := by
  unfold dedupKeys
  exact dedup_foldl kvs [] h

theorem skipWs_space (t : Str) : skipWs (32 :: t) = skipWs t := by
  simp [skipWs, isWsB]

theorem dumpStr_cons (k : Str) (X : Str) :
    dumpStr k ++ X = 34 :: (k.flatMap escapeChar ++ (34 :: X)) := by
  simp [dumpStr]

theorem skipWs_dumpStr (k : Str) (X : Str) : skipWs (dumpStr k ++ X) = dumpStr k ++ X := by
  rw [dumpStr_cons, skipWs_not_ws 34 _ (by decide)]

theorem skipWs_arrTail (xs : List Json) (rest : Str) :
    skipWs (dumpsArrTail xs ++ 93 :: rest) = dumpsArrTail xs ++ 93 :: rest := by
  cases xs with
  | nil => exact skipWs_not_ws 93 rest (by decide)
  | cons x xs =>
    rw [show dumpsArrTail (x :: xs) = (44 :: 32 :: dumps x) ++ dumpsArrTail xs from rfl]
    simp only [List.cons_append, List.append_assoc]
    exact skipWs_not_ws 44 _ (by decide)

theorem skipWs_objTail (kvs : List (Str × Json)) (rest : Str) :
    skipWs (dumpsObjTail kvs ++ 125 :: rest) = dumpsObjTail kvs ++ 125 :: rest := by
  cases kvs with
  | nil => exact skipWs_not_ws 125 rest (by decide)
  | cons kv kvs =>
    obtain ⟨k, v⟩ := kv
    rw [show dumpsObjTail ((k, v) :: kvs) =
      (44 :: 32 :: (dumpStr k ++ (58 :: 32 :: dumps v))) ++ dumpsObjTail kvs from rfl]
    simp only [List.cons_append, List.append_assoc]
    exact skipWs_not_ws 44 _ (by decide)

theorem skipWs_quote (t : Str) : skipWs (34 :: t) = 34 :: t :=
  skipWs_not_ws 34 t (by decide)

theorem dumps_length_pos (m : Json) : 1 ≤ (dumps m).length := by
  obtain ⟨c, t, hct, -, -, -, -⟩ := dumps_head m
  rw [hct]
  simp

/-! ## Definitional dispatch steps of the parser -/

theorem parseVal_n (f : Nat) (r : Str) :
    parseVal (f + 1) (110 :: r) =
      (match r with
        | 117 :: 108 :: 108 :: r' => some (.null, r')
        | _ => none) := rfl

theorem parseVal_t (f : Nat) (r : Str) :
    parseVal (f + 1) (116 :: r) =
      (match r with
        | 114 :: 117 :: 101 :: r' => some (.bool true, r')
        | _ => none) := rfl

theorem parseVal_f (f : Nat) (r : Str) :
    parseVal (f + 1) (102 :: r) =
      (match r with
        | 97 :: 108 :: 115 :: 101 :: r' => some (.bool false, r')
        | _ => none) := rfl

theorem parseVal_quote (f : Nat) (r : Str) :
    parseVal (f + 1) (34 :: r) = (parseStrBody r).map (fun p => (Json.str p.1, p.2)) := rfl

theorem parseVal_lbracket (f : Nat) (r : Str) :
    parseVal (f + 1) (91 :: r) = parseArr f (skipWs r) := rfl

theorem parseVal_lbrace (f : Nat) (r : Str) :
    parseVal (f + 1) (123 :: r) = parseObj f (skipWs r) := rfl

theorem parseVal_minus (f : Nat) (r : Str) :
    parseVal (f + 1) (45 :: r) = parseNumber (45 :: r) := rfl

theorem parseArr_rbracket (f : Nat) (r : Str) :
    parseArr (f + 1) (93 :: r) = some (.arr [], r) := rfl

theorem parseObj_rbrace (f : Nat) (r : Str) :
    parseObj (f + 1) (125 :: r) = some (.obj [], r) := rfl

theorem parseArrTail_rbracket (f : Nat) (r : Str) :
    parseArrTail (f + 1) (93 :: r) = some ([], r) := rfl

theorem parseArrTail_comma (f : Nat) (r : Str) :
    parseArrTail (f + 1) (44 :: r) =
      (match parseVal f (skipWs r) with
        | none => none
        | some (v, r1) =>
          match parseArrTail f (skipWs r1) with
          | none => none
          | some (vs, r2) => some (v :: vs, r2)) := rfl

theorem parseObj_quote (f : Nat) (r : Str) :
    parseObj (f + 1) (34 :: r) =
      (match parseStrBody r with
        | none => none
        | some (k, r1) =>
          match skipWs r1 with
          | 58 :: r2 =>
            match parseVal f (skipWs r2) with
            | none => none
            | some (v, r3) =>
              match parseObjTail f (skipWs r3) with
              | none => none
              | some (kvs, r4) => some (.obj (dedupKeys ((k, v) :: kvs)), r4)
          | _ => none) := rfl

theorem parseObjTail_rbrace (f : Nat) (r : Str) :
    parseObjTail (f + 1) (125 :: r) = some ([], r) := rfl

theorem parseObjTail_comma (f : Nat) (r : Str) :
    parseObjTail (f + 1) (44 :: r) =
      (match skipWs r with
        | 34 :: r1 =>
          match parseStrBody r1 with
          | none => none
          | some (k, r2) =>
            match skipWs r2 with
            | 58 :: r3 =>
              match parseVal f (skipWs r3) with
              | none => none
              | some (v, r4) =>
                match parseObjTail f (skipWs r4) with
                | none => none
                | some (kvs, r5) => some ((k, v) :: kvs, r5)
            | _ => none
        | _ => none) := rfl

/-- Round-trip of the JSON codec, by strong induction on the parser fuel:
scanning the serialization of a well-formed value (followed by any
continuation that cannot extend a number) yields exactly that value, and
likewise for array-tail and object-tail encodings. -/
theorem parse_dumps (fuel : Nat) :
    (∀ m rest, wfJson m = true → numEndOk rest = true → 2 * (dumps m).length ≤ fuel →
      parseVal fuel (dumps m ++ rest) = some (m, rest)) ∧
    (∀ xs rest, wfJsonList xs = true → 2 * ((dumpsArrTail xs).length + 1) ≤ fuel →
      parseArrTail fuel (dumpsArrTail xs ++ 93 :: rest) = some (xs, rest)) ∧
    (∀ kvs rest, wfJsonKV kvs = true → 2 * ((dumpsObjTail kvs).length + 1) ≤ fuel →
      parseObjTail fuel (dumpsObjTail kvs ++ 125 :: rest) = some (kvs, rest)) := by
  induction fuel using Nat.strong_induction_on with
  | _ fuel ih =>
  refine ⟨?_, ?_, ?_⟩
  · -- parseVal on dumps
    intro m rest hwf hrest hfuel
    cases m with
    | null =>
      obtain ⟨f, rfl⟩ : ∃ f, fuel = f + 1 :=
        ⟨fuel - 1, by have h4 : (dumps Json.null).length = 4 := rfl; omega⟩
      rfl
    | bool b =>
      cases b with
      | true =>
        obtain ⟨f, rfl⟩ : ∃ f, fuel = f + 1 :=
          ⟨fuel - 1, by have h4 : (dumps (Json.bool true)).length = 4 := rfl; omega⟩
        rfl
      | false =>
        obtain ⟨f, rfl⟩ : ∃ f, fuel = f + 1 :=
          ⟨fuel - 1, by have h5 : (dumps (Json.bool false)).length = 5 := rfl; omega⟩
        rfl
    | num i =>
      have hlen : 1 ≤ (dumps (Json.num i)).length := dumps_length_pos _
      obtain ⟨f, rfl⟩ : ∃ f, fuel = f + 1 := ⟨fuel - 1, by omega⟩
      rw [show dumps (Json.num i) = intToStr i from rfl]
      by_cases hneg : i < 0
      · have h45 : intToStr i = 45 :: natToStr i.natAbs := by rw [intToStr, if_pos hneg]
        rw [h45, List.cons_append, parseVal_minus, ← List.cons_append, ← h45,
          parseNumber_intToStr i rest hrest]
      · have hnn : intToStr i = natToStr i.toNat := by rw [intToStr, if_neg hneg]
        cases hds : natToStr i.toNat with
        | nil => exact absurd hds (natToStr_ne_nil _)
        | cons d t =>
          have hdig : isDigitB d = true := natToStr_all_digit i.toNat d (by rw [hds]; simp)
          rw [isDigitB_iff] at hdig
          obtain ⟨f', rfl⟩ : ∃ f', f = f' + 1 := ⟨f - 1, by
            rw [show dumps (Json.num i) = intToStr i from rfl, hnn, hds] at hfuel
            simp at hfuel
            omega⟩
          rw [hnn, hds]
          simp only [List.cons_append, parseVal]
          rw [if_neg (by omega : ¬(d = 110)), if_neg (by omega : ¬(d = 116)),
            if_neg (by omega : ¬(d = 102)), if_neg (by omega : ¬(d = 34)),
            if_neg (by omega : ¬(d = 91)), if_neg (by omega : ¬(d = 123)),
            ← List.cons_append, ← hds, ← hnn, parseNumber_intToStr i rest hrest]
    | str s =>
      have hwfs : wfStr s = true := by simpa [wfJson] using hwf
      obtain ⟨f, rfl⟩ : ∃ f, fuel = f + 1 :=
        ⟨fuel - 1, by have := dumps_length_pos (Json.str s); omega⟩
      rw [show dumps (Json.str s) = dumpStr s from rfl, dumpStr_cons, parseVal_quote,
        parseStrBody_escape s rest hwfs]
      rfl
    | arr xs =>
      cases xs with
      | nil =>
        obtain ⟨f, rfl⟩ : ∃ f, fuel = f + 1 :=
          ⟨fuel - 1, by have h2 : (dumps (Json.arr [])).length = 2 := rfl; omega⟩
        obtain ⟨f', rfl⟩ : ∃ f', f = f' + 1 :=
          ⟨f - 1, by have h2 : (dumps (Json.arr [])).length = 2 := rfl; omega⟩
        rw [show dumps (Json.arr []) = [91, 93] from rfl]
        rw [show ([91, 93] : Str) ++ rest = 91 :: 93 :: rest from rfl, parseVal_lbracket,
          skipWs_not_ws 93 rest (by decide), parseArr_rbracket]
      | cons x xs =>
        have hwfx : wfJson x = true ∧ wfJsonList xs = true := by
          have hl : wfJsonList (x :: xs) = true := by simpa [wfJson] using hwf
          simpa [wfJsonList, Bool.and_eq_true] using hl
        have hlen : (dumps (Json.arr (x :: xs))).length =
            2 + (dumps x).length + (dumpsArrTail xs).length := by
          rw [show dumps (Json.arr (x :: xs)) = 91 :: (dumps x ++ dumpsArrTail xs) ++ [93] from rfl]
          simp
          omega
        have hLx := dumps_length_pos x
        obtain ⟨f, rfl⟩ : ∃ f, fuel = f + 1 := ⟨fuel - 1, by omega⟩
        obtain ⟨f', rfl⟩ : ∃ f', f = f' + 1 := ⟨f - 1, by omega⟩
        rw [show dumps (Json.arr (x :: xs)) = 91 :: (dumps x ++ dumpsArrTail xs) ++ [93] from rfl]
        simp only [List.cons_append, List.append_assoc, List.singleton_append, List.nil_append]
        rw [parseVal_lbracket, skipWs_dumps x _]
        obtain ⟨c, t, hct, hws, h93, -, -⟩ := dumps_head x
        have hx := (ih f' (by omega)).1 x (dumpsArrTail xs ++ 93 :: rest)
          hwfx.1 (numEndOk_arrTail xs rest) (by omega)
        have hxs := (ih f' (by omega)).2.1 xs rest hwfx.2 (by omega)
        rw [hct, List.cons_append]
        simp only [parseArr]
        rw [if_neg h93, ← List.cons_append, ← hct]
        simp only [hx, skipWs_arrTail, hxs]
    | obj kvs =>
      cases kvs with
      | nil =>
        obtain ⟨f, rfl⟩ : ∃ f, fuel = f + 1 :=
          ⟨fuel - 1, by have h2 : (dumps (Json.obj [])).length = 2 := rfl; omega⟩
        obtain ⟨f', rfl⟩ : ∃ f', f = f' + 1 :=
          ⟨f - 1, by have h2 : (dumps (Json.obj [])).length = 2 := rfl; omega⟩
        rw [show dumps (Json.obj []) = [123, 125] from rfl]
        rw [show ([123, 125] : Str) ++ rest = 123 :: 125 :: rest from rfl, parseVal_lbrace,
          skipWs_not_ws 125 rest (by decide), parseObj_rbrace]
      | cons kv kvs =>
        obtain ⟨k, v⟩ := kv
        have hnd : nodupKeys ((k, v) :: kvs) = true ∧ wfJsonKV ((k, v) :: kvs) = true := by
          simpa [wfJson, Bool.and_eq_true] using hwf
        have hwkv : (wfStr k = true ∧ wfJson v = true) ∧ wfJsonKV kvs = true := by
          simpa [wfJsonKV, Bool.and_eq_true] using hnd.2
        have hlen : (dumps (Json.obj ((k, v) :: kvs))).length =
            2 + (dumpStr k).length + 2 + (dumps v).length + (dumpsObjTail kvs).length := by
          rw [show dumps (Json.obj ((k, v) :: kvs)) =
            123 :: (dumpStr k ++ (58 :: 32 :: dumps v) ++ dumpsObjTail kvs) ++ [125] from rfl]
          simp
          omega
        have hLv := dumps_length_pos v
        have hLk : 2 ≤ (dumpStr k).length := by
          rw [dumpStr]
          simp
        obtain ⟨f, rfl⟩ : ∃ f, fuel = f + 1 := ⟨fuel - 1, by omega⟩
        obtain ⟨f', rfl⟩ : ∃ f', f = f' + 1 := ⟨f - 1, by omega⟩
        rw [show dumps (Json.obj ((k, v) :: kvs)) =
          123 :: (dumpStr k ++ (58 :: 32 :: dumps v) ++ dumpsObjTail kvs) ++ [125] from rfl]
        simp only [List.cons_append, List.append_assoc, List.singleton_append, List.nil_append]
        rw [parseVal_lbrace, skipWs_dumpStr k _, dumpStr_cons, parseObj_quote]
        have hk := parseStrBody_escape k
          (58 :: 32 :: (dumps v ++ (dumpsObjTail kvs ++ 125 :: rest))) hwkv.1.1
        have h58 : skipWs (58 :: 32 :: (dumps v ++ (dumpsObjTail kvs ++ 125 :: rest))) =
            58 :: 32 :: (dumps v ++ (dumpsObjTail kvs ++ 125 :: rest)) :=
          skipWs_not_ws 58 _ (by decide)
        have hv := (ih f' (by omega)).1 v (dumpsObjTail kvs ++ 125 :: rest)
          hwkv.1.2 (numEndOk_objTail kvs rest) (by omega)
        have hkvs := (ih f' (by omega)).2.2 kvs rest hwkv.2 (by omega)
        simp only [hk, h58, skipWs_space, skipWs_dumps, hv, skipWs_objTail, hkvs]
        rw [dedupKeys_of_nodup _ hnd.1]
  · -- parseArrTail on dumpsArrTail
    intro xs rest hwf hfuel
    cases xs with
    | nil =>
      obtain ⟨f, rfl⟩ : ∃ f, fuel = f + 1 := ⟨fuel - 1, by omega⟩
      rw [show dumpsArrTail ([] : List Json) = [] from rfl, List.nil_append,
        parseArrTail_rbracket]
    | cons y ys =>
      have hwfy : wfJson y = true ∧ wfJsonList ys = true := by
        simpa [wfJsonList, Bool.and_eq_true] using hwf
      have hlen : (dumpsArrTail (y :: ys)).length =
          2 + (dumps y).length + (dumpsArrTail ys).length := by
        rw [show dumpsArrTail (y :: ys) = (44 :: 32 :: dumps y) ++ dumpsArrTail ys from rfl]
        simp
        omega
      obtain ⟨f, rfl⟩ : ∃ f, fuel = f + 1 := ⟨fuel - 1, by omega⟩
      rw [show dumpsArrTail (y :: ys) = (44 :: 32 :: dumps y) ++ dumpsArrTail ys from rfl]
      simp only [List.cons_append, List.append_assoc]
      rw [parseArrTail_comma]
      have hy := (ih f (by omega)).1 y (dumpsArrTail ys ++ 93 :: rest)
        hwfy.1 (numEndOk_arrTail ys rest) (by omega)
      have hys := (ih f (by omega)).2.1 ys rest hwfy.2 (by omega)
      simp only [skipWs_space, skipWs_dumps, hy, skipWs_arrTail, hys]
  · -- parseObjTail on dumpsObjTail
    intro kvs rest hwf hfuel
    cases kvs with
    | nil =>
      obtain ⟨f, rfl⟩ : ∃ f, fuel = f + 1 := ⟨fuel - 1, by omega⟩
      rw [show dumpsObjTail ([] : List (Str × Json)) = [] from rfl, List.nil_append,
        parseObjTail_rbrace]
    | cons kv kvs =>
      obtain ⟨k, v⟩ := kv
      have hwkv : (wfStr k = true ∧ wfJson v = true) ∧ wfJsonKV kvs = true := by
        simpa [wfJsonKV, Bool.and_eq_true] using hwf
      have hLv := dumps_length_pos v
      have hLk : 2 ≤ (dumpStr k).length := by
        rw [dumpStr]
        simp
      have hlen : (dumpsObjTail ((k, v) :: kvs)).length =
          2 + (dumpStr k).length + 2 + (dumps v).length + (dumpsObjTail kvs).length := by
        rw [show dumpsObjTail ((k, v) :: kvs) =
          (44 :: 32 :: (dumpStr k ++ (58 :: 32 :: dumps v))) ++ dumpsObjTail kvs from rfl]
        simp
        omega
      obtain ⟨f, rfl⟩ : ∃ f, fuel = f + 1 := ⟨fuel - 1, by omega⟩
      rw [show dumpsObjTail ((k, v) :: kvs) =
        (44 :: 32 :: (dumpStr k ++ (58 :: 32 :: dumps v))) ++ dumpsObjTail kvs from rfl]
      simp only [List.cons_append, List.append_assoc]
      rw [parseObjTail_comma]
      have hk := parseStrBody_escape k
        (58 :: 32 :: (dumps v ++ (dumpsObjTail kvs ++ 125 :: rest))) hwkv.1.1
      have h58 : skipWs (58 :: 32 :: (dumps v ++ (dumpsObjTail kvs ++ 125 :: rest))) =
          58 :: 32 :: (dumps v ++ (dumpsObjTail kvs ++ 125 :: rest)) :=
        skipWs_not_ws 58 _ (by decide)
      have hv := (ih f (by omega)).1 v (dumpsObjTail kvs ++ 125 :: rest)
        hwkv.1.2 (numEndOk_objTail kvs rest) (by omega)
      have hkvs := (ih f (by omega)).2.2 kvs rest hwkv.2 (by omega)
      simp only [skipWs_space, skipWs_dumpStr, dumpStr_cons, skipWs_quote, hk, h58,
        skipWs_dumps, hv, skipWs_objTail, hkvs]

/-- `json.loads` inverts `json.dumps` on well-formed values. -/
theorem loads_dumps (m : Json) (hwf : wfJson m = true) : loads (dumps m) = some m := by
  unfold loads
  have h1 : skipWs (dumps m) = dumps m := by
    have h := skipWs_dumps m []
    simpa using h
  rw [h1]
  have h2 := (parse_dumps (2 * (dumps m).length + 2)).1 m [] hwf (by rfl) (by omega)
  rw [List.append_nil] at h2
  rw [h2]
  rfl

/-! ## The serialized text is pure ASCII -/

theorem hex4_ascii (n : Nat) : ∀ c ∈ hex4 n, c < 128 := by
  intro c hc
  simp only [hex4, List.mem_cons, List.not_mem_nil, or_false] at hc
  have hd : ∀ d : Nat, d < 16 → hexDig d < 128 := by
    intro d hdlt
    unfold hexDig
    split_ifs <;> omega
  rcases hc with rfl | rfl | rfl | rfl <;> exact hd _ (by omega)

theorem escapeChar_ascii (c : Nat) : ∀ x ∈ escapeChar c, x < 128 := by
  intro x hx
  unfold escapeChar at hx
  by_cases h34 : c = 34
  · rw [if_pos h34] at hx; simp at hx; omega
  rw [if_neg h34] at hx
  by_cases h92 : c = 92
  · rw [if_pos h92] at hx; simp at hx; omega
  rw [if_neg h92] at hx
  by_cases h8 : c = 8
  · rw [if_pos h8] at hx; simp at hx; omega
  rw [if_neg h8] at hx
  by_cases h9 : c = 9
  · rw [if_pos h9] at hx; simp at hx; omega
  rw [if_neg h9] at hx
  by_cases h10 : c = 10
  · rw [if_pos h10] at hx; simp at hx; omega
  rw [if_neg h10] at hx
  by_cases h12 : c = 12
  · rw [if_pos h12] at hx; simp at hx; omega
  rw [if_neg h12] at hx
  by_cases h13 : c = 13
  · rw [if_pos h13] at hx; simp at hx; omega
  rw [if_neg h13] at hx
  by_cases h32 : c < 32
  · rw [if_pos h32] at hx
    simp only [List.mem_cons] at hx
    rcases hx with rfl | rfl | hx
    · omega
    · omega
    · exact hex4_ascii c x hx
  rw [if_neg h32] at hx
  by_cases h126 : c ≤ 126
  · rw [if_pos h126] at hx; simp at hx; omega
  rw [if_neg h126] at hx
  by_cases h64k : c < 65536
  · rw [if_pos h64k] at hx
    simp only [List.mem_cons] at hx
    rcases hx with rfl | rfl | hx
    · omega
    · omega
    · exact hex4_ascii c x hx
  rw [if_neg h64k] at hx
  simp only [List.cons_append, List.mem_cons, List.mem_append] at hx
  rcases hx with rfl | rfl | hx | rfl | rfl | hx
  · omega
  · omega
  · exact hex4_ascii _ x hx
  · omega
  · omega
  · exact hex4_ascii _ x hx

theorem natToStr_ascii (n : Nat) : ∀ c ∈ natToStr n, c < 128 := by
  intro c hc
  have := natToStr_all_digit n c hc
  rw [isDigitB_iff] at this
  omega

theorem intToStr_ascii (i : Int) : ∀ c ∈ intToStr i, c < 128 := by
  intro c hc
  unfold intToStr at hc
  by_cases hneg : i < 0
  · rw [if_pos hneg] at hc
    simp only [List.mem_cons] at hc
    rcases hc with rfl | hc
    · omega
    · exact natToStr_ascii _ c hc
  · rw [if_neg hneg] at hc
    exact natToStr_ascii _ c hc

theorem dumpStr_ascii (s : Str) : ∀ c ∈ dumpStr s, c < 128 := by
  intro c hc
  unfold dumpStr at hc
  rcases List.mem_append.mp hc with hc | hc
  · rcases List.mem_cons.mp hc with rfl | hc
    · omega
    · obtain ⟨a, -, ha⟩ := List.mem_flatMap.mp hc
      exact escapeChar_ascii a c ha
  · simp at hc
    omega

/-- All three serializers emit only ASCII code points (this is
`ensure_ascii=True`), by strong induction on term size. -/
theorem dumps_ascii_aux (N : Nat) :
    (∀ m : Json, sizeOf m ≤ N → ∀ c ∈ dumps m, c < 128) ∧
    (∀ xs : List Json, sizeOf xs ≤ N → ∀ c ∈ dumpsArrTail xs, c < 128) ∧
    (∀ kvs : List (Str × Json), sizeOf kvs ≤ N → ∀ c ∈ dumpsObjTail kvs, c < 128) := by
  induction N using Nat.strong_induction_on with
  | _ N ih =>
  refine ⟨?_, ?_, ?_⟩
  · intro m hsz c hc
    cases m with
    | null =>
      rw [show dumps Json.null = [110, 117, 108, 108] from rfl] at hc
      simp at hc
      omega
    | bool b =>
      cases b with
      | true =>
        rw [show dumps (Json.bool true) = [116, 114, 117, 101] from rfl] at hc
        simp at hc
        omega
      | false =>
        rw [show dumps (Json.bool false) = [102, 97, 108, 115, 101] from rfl] at hc
        simp at hc
        omega
    | num i => exact intToStr_ascii i c (by simpa [dumps] using hc)
    | str s => exact dumpStr_ascii s c (by simpa [dumps] using hc)
    | arr xs =>
      cases xs with
      | nil =>
        rw [show dumps (Json.arr []) = [91, 93] from rfl] at hc
        simp at hc
        omega
      | cons x xs =>
        rw [show dumps (Json.arr (x :: xs)) = 91 :: (dumps x ++ dumpsArrTail xs) ++ [93] from rfl]
          at hc
        have hszx : sizeOf x < N := by
          have h1 : sizeOf (Json.arr (x :: xs)) = 1 + (1 + sizeOf x + sizeOf xs) := by
            simp [Json.arr.sizeOf_spec]
          omega
        have hszxs : sizeOf xs < N := by
          have h1 : sizeOf (Json.arr (x :: xs)) = 1 + (1 + sizeOf x + sizeOf xs) := by
            simp [Json.arr.sizeOf_spec]
          have h2 : 1 ≤ sizeOf x := by cases x <;> simp <;> omega
          omega
        rcases List.mem_append.mp hc with hc | hc
        · rcases List.mem_cons.mp hc with rfl | hc
          · omega
          · rcases List.mem_append.mp hc with hc | hc
            · exact (ih (sizeOf x) hszx).1 x (le_refl _) c hc
            · exact (ih (sizeOf xs) hszxs).2.1 xs (le_refl _) c hc
        · simp at hc
          omega
    | obj kvs =>
      cases kvs with
      | nil =>
        rw [show dumps (Json.obj []) = [123, 125] from rfl] at hc
        simp at hc
        omega
      | cons kv kvs =>
        obtain ⟨k, v⟩ := kv
        rw [show dumps (Json.obj ((k, v) :: kvs)) =
          123 :: (dumpStr k ++ (58 :: 32 :: dumps v) ++ dumpsObjTail kvs) ++ [125] from rfl] at hc
        have hszv : sizeOf v < N := by
          have h1 : sizeOf (Json.obj ((k, v) :: kvs)) =
              1 + (1 + (1 + sizeOf k + sizeOf v) + sizeOf kvs) := by
            simp [Json.obj.sizeOf_spec]
          omega
        have hszkvs : sizeOf kvs < N := by
          have h1 : sizeOf (Json.obj ((k, v) :: kvs)) =
              1 + (1 + (1 + sizeOf k + sizeOf v) + sizeOf kvs) := by
            simp [Json.obj.sizeOf_spec]
          have h2 : 1 ≤ sizeOf v := by cases v <;> simp <;> omega
          omega
        rcases List.mem_append.mp hc with hc | hc
        · rcases List.mem_cons.mp hc with rfl | hc
          · omega
          · rcases List.mem_append.mp hc with hc | hc
            · rcases List.mem_append.mp hc with hc | hc
              · exact dumpStr_ascii k c hc
              · rcases List.mem_cons.mp hc with rfl | hc
                · omega
                · rcases List.mem_cons.mp hc with rfl | hc
                  · omega
                  · exact (ih (sizeOf v) hszv).1 v (le_refl _) c hc
            · exact (ih (sizeOf kvs) hszkvs).2.2 kvs (le_refl _) c hc
        · simp at hc
          omega
  · intro xs hsz c hc
    cases xs with
    | nil => simp [dumpsArrTail] at hc
    | cons x xs =>
      rw [show dumpsArrTail (x :: xs) = (44 :: 32 :: dumps x) ++ dumpsArrTail xs from rfl] at hc
      have hszx : sizeOf x < N := by
        have h1 : sizeOf (x :: xs) = 1 + sizeOf x + sizeOf xs := by simp
        have h2 : 1 ≤ sizeOf xs := by cases xs <;> simp <;> omega
        omega
      have hszxs : sizeOf xs < N := by
        have h1 : sizeOf (x :: xs) = 1 + sizeOf x + sizeOf xs := by simp
        have h2 : 1 ≤ sizeOf x := by cases x <;> simp <;> omega
        omega
      rcases List.mem_append.mp hc with hc | hc
      · rcases List.mem_cons.mp hc with rfl | hc
        · omega
        · rcases List.mem_cons.mp hc with rfl | hc
          · omega
          · exact (ih (sizeOf x) hszx).1 x (le_refl _) c hc
      · exact (ih (sizeOf xs) hszxs).2.1 xs (le_refl _) c hc
  · intro kvs hsz c hc
    cases kvs with
    | nil => simp [dumpsObjTail] at hc
    | cons kv kvs =>
      obtain ⟨k, v⟩ := kv
      rw [show dumpsObjTail ((k, v) :: kvs) =
        (44 :: 32 :: (dumpStr k ++ (58 :: 32 :: dumps v))) ++ dumpsObjTail kvs from rfl] at hc
      have hszv : sizeOf v < N := by
        have h1 : sizeOf ((k, v) :: kvs) = 1 + (1 + sizeOf k + sizeOf v) + sizeOf kvs := by simp
        have h2 : 1 ≤ sizeOf kvs := by cases kvs <;> simp <;> omega
        omega
      have hszkvs : sizeOf kvs < N := by
        have h1 : sizeOf ((k, v) :: kvs) = 1 + (1 + sizeOf k + sizeOf v) + sizeOf kvs := by simp
        have h2 : 1 ≤ sizeOf v := by cases v <;> simp <;> omega
        omega
      rcases List.mem_append.mp hc with hc | hc
      · rcases List.mem_cons.mp hc with rfl | hc
        · omega
        · rcases List.mem_cons.mp hc with rfl | hc
          · omega
          · rcases List.mem_append.mp hc with hc | hc
            · exact dumpStr_ascii k c hc
            · rcases List.mem_cons.mp hc with rfl | hc
              · omega
              · rcases List.mem_cons.mp hc with rfl | hc
                · omega
                · exact (ih (sizeOf v) hszv).1 v (le_refl _) c hc
      · exact (ih (sizeOf kvs) hszkvs).2.2 kvs (le_refl _) c hc

theorem dumps_ascii (m : Json) : ∀ c ∈ dumps m, c < 128 :=
  (dumps_ascii_aux (sizeOf m)).1 m (le_refl _)

theorem utf8Len_eq_length (s : Str) (h : ∀ c ∈ s, c < 128) : utf8Len s = s.length := by
  induction s with
  | nil => rfl
  | cons c t ih =>
    have hc := h c (by simp)
    simp only [utf8Len, List.map_cons, List.sum_cons, List.length_cons] at ih ⊢
    rw [show utf8CpLen c = 1 from by unfold utf8CpLen; rw [if_pos hc]]
    have := ih (fun x hx => h x (by simp [hx]))
    omega

/-! ## Header matching on well-formed frames -/

/-- The header regex matches at the start of a frame, reading back exactly the
declared length: the greedy digit run is the printed length (terminated by
`\r`), and the value parses back by the decimal round-trip. -/
theorem matchAt_frame (n : Nat) (tail : Str) :
    matchAt (headerLit ++ (natToStr n ++ ([13, 10, 13, 10] ++ tail))) =
      some (16 + (natToStr n).length + 4, n) := by
  simp only [matchAt]
  rw [if_pos (isPrefixOf_append_self _ _)]
  have hdrop : (headerLit ++ (natToStr n ++ ([13, 10, 13, 10] ++ tail))).drop 16 =
      natToStr n ++ ([13, 10, 13, 10] ++ tail) := by
    rw [show (16 : Nat) = headerLit.length from rfl, List.drop_left]
  rw [hdrop]
  have htw : (natToStr n ++ ([13, 10, 13, 10] ++ tail)).takeWhile isDigitB = natToStr n := by
    rw [takeWhile_append_all _ _ _ (natToStr_all_digit n)]
    rw [show (([13, 10, 13, 10] ++ tail) : Str).takeWhile isDigitB = [] from by
      simp [List.takeWhile_cons, isDigitB]]
    exact List.append_nil _
  rw [htw]
  have hne : (natToStr n).isEmpty = false := by
    cases hds : natToStr n with
    | nil => exact absurd hds (natToStr_ne_nil n)
    | cons d t => rfl
  rw [if_neg (by simp [hne])]
  have hdrop2 : (natToStr n ++ ([13, 10, 13, 10] ++ tail)).drop (natToStr n).length =
      [13, 10, 13, 10] ++ tail := List.drop_left _ _
  rw [hdrop2, if_pos (isPrefixOf_append_self [13, 10, 13, 10] tail), natToStr_toNat]

theorem findHeader_of_matchAt (s : Str) (r : Nat × Nat) (h : matchAt s = some r) :
    findHeader s = some r := by
  cases s with
  | nil =>
    rw [show matchAt [] = none from rfl] at h
    exact absurd h (by simp)
  | cons a t =>
    unfold findHeader
    rw [h]

/-- `re.search` over a prefix with no match shifts the match of the suffix. -/
theorem findHeader_shift (w : Str) :
    ∀ t : Str, (∀ i, i < w.length → matchAt ((w ++ t).drop i) = none) →
      findHeader (w ++ t) =
        (match findHeader t with
          | some (e, v) => some (e + w.length, v)
          | none => none) := by
  induction w with
  | nil =>
    intro t _
    rw [List.nil_append]
    cases h : findHeader t with
    | none => rfl
    | some r => obtain ⟨e, v⟩ := r; simp
  | cons a w ih =>
    intro t h
    have h0 : matchAt (a :: (w ++ t)) = none := by
      have := h 0 (by simp)
      simpa using this
    have step : findHeader (a :: (w ++ t)) =
        (findHeader (w ++ t)).map (fun x => (x.1 + 1, x.2)) := by
      conv_lhs => rw [findHeader]
      rw [h0]
    rw [List.cons_append, step, ih t (fun i hi => by
      have := h (i + 1) (by simp; omega)
      simpa [List.drop_succ_cons] using this)]
    cases hft : findHeader t with
    | none => rfl
    | some r =>
      obtain ⟨e, v⟩ := r
      simp only [Option.map_some', List.length_cons]
      rw [show e + w.length + 1 = e + (w.length + 1) from by omega]

/-! ## Slices of concatenations -/

theorem slice_mid (A B C : Str) :
    slice (A ++ (B ++ C)) A.length (A.length + B.length) = B := by
  unfold slice
  rw [List.take_append_eq_append_take, List.take_of_length_le (by omega),
    List.take_append_eq_append_take]
  have h1 : A.length + B.length - A.length = B.length := by omega
  have h2 : B.length - B.length = 0 := by omega
  rw [h1, List.take_of_length_le (le_refl _), h2, List.take_zero, List.append_nil,
    List.drop_left]

theorem slice_last (A B : Str) : slice (A ++ B) A.length (A.length + B.length) = B := by
  have h := slice_mid A B []
  rw [List.append_nil] at h
  exact h

/-! ## Shape of an encoded frame -/

theorem encode_assoc (m : Json) :
    encode m = headerLit ++ (natToStr (dumps m).length ++ ([13, 10, 13, 10] ++ dumps m)) := by
  unfold encode
  simp [List.append_assoc]

theorem encode_split (m : Json) :
    encode m = (headerLit ++ natToStr (dumps m).length ++ [13, 10, 13, 10]) ++ dumps m := by
  unfold encode
  simp [List.append_assoc]

theorem encode_length (m : Json) :
    (encode m).length = 20 + (natToStr (dumps m).length).length + (dumps m).length := by
  rw [encode_split]
  simp only [List.length_append, show headerLit.length = 16 from rfl, List.length_cons,
    List.length_nil]
  omega

theorem headerPart_length (m : Json) :
    (headerLit ++ natToStr (dumps m).length ++ [13, 10, 13, 10]).length =
      20 + (natToStr (dumps m).length).length := by
  simp only [List.length_append, show headerLit.length = 16 from rfl, List.length_cons,
    List.length_nil]
  omega

/-! ## C1: encode/decode round-trip -/

/-- **C1** (round-trip): for every well-formed JSON-RPC message `m` — request,
notification, or response, with arbitrary JSON params including non-ASCII
string values — decoding the exact text produced by `send_msg`'s encoder
yields exactly the one message `m`; and the Content-Length value written by
the encoder, `len(content_str)` = `(dumps m).length`, equals the UTF-8 byte
length of the encoded JSON payload (the serialization is pure ASCII under
`ensure_ascii=True`, so code-point count and byte count coincide). -/
theorem c1_roundtrip (m : Json) (hwf : wfJson m = true) :
    parse_lsp_responses (encode m) = [m] ∧ utf8Len (dumps m) = (dumps m).length := by
  have hfh : findHeader (encode m) =
      some (16 + (natToStr (dumps m).length).length + 4, (dumps m).length) := by
    apply findHeader_of_matchAt
    rw [encode_assoc]
    exact matchAt_frame (dumps m).length (dumps m)
  constructor
  · rw [parse_eq_parseFrom]
    have hpos : 0 < (encode m).length := by
      rw [encode_length]
      omega
    have hstep := parseFrom_step (encode m) 0 (16 + (natToStr (dumps m).length).length + 4)
      (dumps m).length hpos (by simpa using hfh)
    rw [hstep]
    have e1 : (0 + (16 + (natToStr (dumps m).length).length + 4)) =
        (headerLit ++ natToStr (dumps m).length ++ [13, 10, 13, 10]).length := by
      rw [headerPart_length]
      omega
    have hsl : slice (encode m) (0 + (16 + (natToStr (dumps m).length).length + 4))
        (0 + (16 + (natToStr (dumps m).length).length + 4) + (dumps m).length) = dumps m := by
      rw [e1, show encode m =
        (headerLit ++ natToStr (dumps m).length ++ [13, 10, 13, 10]) ++ dumps m from
          encode_split m]
      exact slice_last _ _
    rw [hsl, loads_dumps m hwf]
    have hstop : parseFrom (encode m)
        (0 + (16 + (natToStr (dumps m).length).length + 4) + (dumps m).length) = [] := by
      unfold parseFrom
      apply parseLoop_stop
      rw [encode_length]
      omega
    rw [hstop]
    rfl
  · exact utf8Len_eq_length _ (dumps_ascii m)

/-- Witness for C1 on a concrete request whose params hold a non-ASCII string
(`é`, a CJK character, and an astral-plane code point). -/
theorem c1_roundtrip_witness :
    wfJson (Json.obj [(codes "jsonrpc", .str (codes "2.0")), (codes "id", .num 1),
        (codes "params", .obj [(codes "text", .str [233, 28450, 119997])])]) = true ∧
      (parse_lsp_responses (encode (Json.obj [(codes "jsonrpc", .str (codes "2.0")),
          (codes "id", .num 1),
          (codes "params", .obj [(codes "text", .str [233, 28450, 119997])])])) =
        [Json.obj [(codes "jsonrpc", .str (codes "2.0")), (codes "id", .num 1),
          (codes "params", .obj [(codes "text", .str [233, 28450, 119997])])]] ∧
        utf8Len (dumps (Json.obj [(codes "jsonrpc", .str (codes "2.0")), (codes "id", .num 1),
          (codes "params", .obj [(codes "text", .str [233, 28450, 119997])])])) =
          (dumps (Json.obj [(codes "jsonrpc", .str (codes "2.0")), (codes "id", .num 1),
            (codes "params", .obj [(codes "text", .str [233, 28450, 119997])])])).length) :=
  ⟨by rfl,
    c1_roundtrip (Json.obj [(codes "jsonrpc", .str (codes "2.0")), (codes "id", .num 1),
      (codes "params", .obj [(codes "text", .str [233, 28450, 119997])])]) (by rfl)⟩

/-! ## C6: noise tolerance -/

/-- **C6** (noise tolerance): for every pair of well-formed messages and every
run of inserted bytes `w` that is non-protocol data — no position inside `w`
starts a `Content-Length: (\d+)\r\n\r\n` header match — decoding the buffer
`encode m1 ++ w ++ encode m2` recovers exactly the two messages `m1` and
`m2`: the inserted bytes never prevent either valid frame from being
decoded, because `re.search` scans past them to the next header. -/
theorem c6_noise_tolerance (m1 m2 : Json) (w : Str)
    (h1 : wfJson m1 = true) (h2 : wfJson m2 = true)
    (hw : ∀ i, i < w.length → matchAt ((w ++ encode m2).drop i) = none) :
    parse_lsp_responses (encode m1 ++ (w ++ encode m2)) = [m1, m2] := by
  rw [parse_eq_parseFrom]
  have hm1 : matchAt (encode m1 ++ (w ++ encode m2)) =
      some (16 + (natToStr (dumps m1).length).length + 4, (dumps m1).length) := by
    rw [encode_assoc m1]
    simp only [List.append_assoc]
    exact matchAt_frame (dumps m1).length (dumps m1 ++ (w ++ encode m2))
  have hf1 : findHeader (encode m1 ++ (w ++ encode m2)) =
      some (16 + (natToStr (dumps m1).length).length + 4, (dumps m1).length) :=
    findHeader_of_matchAt _ _ hm1
  have hpos1 : 0 < (encode m1 ++ (w ++ encode m2)).length := by
    simp only [List.length_append]
    have e1 := encode_length m1
    omega
  have hstep1 := parseFrom_step (encode m1 ++ (w ++ encode m2)) 0
    (16 + (natToStr (dumps m1).length).length + 4) (dumps m1).length hpos1
    (by simpa using hf1)
  rw [hstep1]
  have hsl1 : slice (encode m1 ++ (w ++ encode m2))
      (0 + (16 + (natToStr (dumps m1).length).length + 4))
      (0 + (16 + (natToStr (dumps m1).length).length + 4) + (dumps m1).length) =
      dumps m1 := by
    have h := slice_mid (headerLit ++ natToStr (dumps m1).length ++ [13, 10, 13, 10])
      (dumps m1) (w ++ encode m2)
    rw [headerPart_length] at h
    have he : encode m1 ++ (w ++ encode m2) =
        (headerLit ++ natToStr (dumps m1).length ++ [13, 10, 13, 10]) ++
          (dumps m1 ++ (w ++ encode m2)) := by
      rw [encode_split m1]
      simp [List.append_assoc]
    rw [he]
    have e1 : 0 + (16 + (natToStr (dumps m1).length).length + 4) =
        20 + (natToStr (dumps m1).length).length := by omega
    rw [e1]
    exact h
  rw [hsl1, loads_dumps m1 h1]
  have hpos2 : 0 + (16 + (natToStr (dumps m1).length).length + 4) + (dumps m1).length <
      (encode m1 ++ (w ++ encode m2)).length := by
    simp only [List.length_append]
    have e1 := encode_length m1
    have e2 := encode_length m2
    omega
  have hdrop2 : (encode m1 ++ (w ++ encode m2)).drop
      (0 + (16 + (natToStr (dumps m1).length).length + 4) + (dumps m1).length) =
      w ++ encode m2 := by
    have e1 : 0 + (16 + (natToStr (dumps m1).length).length + 4) + (dumps m1).length =
        (encode m1).length := by
      rw [encode_length]
      omega
    rw [e1, List.drop_left]
  have hm2 : matchAt (encode m2) =
      some (16 + (natToStr (dumps m2).length).length + 4, (dumps m2).length) := by
    rw [encode_assoc m2]
    exact matchAt_frame (dumps m2).length (dumps m2)
  have hf2 : findHeader (w ++ encode m2) =
      some (16 + (natToStr (dumps m2).length).length + 4 + w.length, (dumps m2).length) := by
    rw [findHeader_shift w (encode m2) hw, findHeader_of_matchAt _ _ hm2]
  have hstep2 := parseFrom_step (encode m1 ++ (w ++ encode m2))
    (0 + (16 + (natToStr (dumps m1).length).length + 4) + (dumps m1).length)
    (16 + (natToStr (dumps m2).length).length + 4 + w.length) (dumps m2).length
    hpos2 (by rw [hdrop2]; exact hf2)
  rw [hstep2]
  have hsl2 : slice (encode m1 ++ (w ++ encode m2))
      (0 + (16 + (natToStr (dumps m1).length).length + 4) + (dumps m1).length +
        (16 + (natToStr (dumps m2).length).length + 4 + w.length))
      (0 + (16 + (natToStr (dumps m1).length).length + 4) + (dumps m1).length +
        (16 + (natToStr (dumps m2).length).length + 4 + w.length) + (dumps m2).length) =
      dumps m2 := by
    have h := slice_last
      (encode m1 ++ w ++ (headerLit ++ natToStr (dumps m2).length ++ [13, 10, 13, 10]))
      (dumps m2)
    have hA : (encode m1 ++ w ++
        (headerLit ++ natToStr (dumps m2).length ++ [13, 10, 13, 10])).length =
        0 + (16 + (natToStr (dumps m1).length).length + 4) + (dumps m1).length +
          (16 + (natToStr (dumps m2).length).length + 4 + w.length) := by
      rw [List.length_append, List.length_append, headerPart_length m2, encode_length m1]
      omega
    rw [hA] at h
    have hb : encode m1 ++ (w ++ encode m2) =
        (encode m1 ++ w ++ (headerLit ++ natToStr (dumps m2).length ++ [13, 10, 13, 10])) ++
          dumps m2 := by
      rw [encode_split m2]
      simp [List.append_assoc]
    rw [hb]
    exact h
  rw [hsl2, loads_dumps m2 h2]
  have hstop : parseFrom (encode m1 ++ (w ++ encode m2))
      (0 + (16 + (natToStr (dumps m1).length).length + 4) + (dumps m1).length +
        (16 + (natToStr (dumps m2).length).length + 4 + w.length) + (dumps m2).length) = [] := by
    unfold parseFrom
    apply parseLoop_stop
    simp only [List.length_append]
    have e1 := encode_length m1
    have e2 := encode_length m2
    omega
  rw [hstop]
  rfl

/-- Witness for C6 on two concrete messages separated by the noise bytes
`"noise"`: decoding recovers both messages. -/
theorem c6_noise_tolerance_witness :
    (wfJson (Json.obj [(codes "id", .num 1)]) = true ∧
      wfJson (Json.obj [(codes "id", .num 2)]) = true ∧
      (∀ i, i < (codes "noise").length →
        matchAt (((codes "noise") ++ encode (Json.obj [(codes "id", .num 2)])).drop i) =
          none)) ∧
      parse_lsp_responses (encode (Json.obj [(codes "id", .num 1)]) ++
          ((codes "noise") ++ encode (Json.obj [(codes "id", .num 2)]))) =
        [Json.obj [(codes "id", .num 1)], Json.obj [(codes "id", .num 2)]] :=
  ⟨⟨by rfl, by rfl, by decide⟩,
    c6_noise_tolerance (Json.obj [(codes "id", .num 1)]) (Json.obj [(codes "id", .num 2)])
      (codes "noise") (by rfl) (by rfl) (by decide)⟩

end TektonLSP
